import Mathlib

/-!
# dwg-go: the LibreDWG build pipeline

A shallow embedding of `dwg_service/build_libredwg/build_libredwg.go`.

* Go strings are lists of Unicode code points (`Str`); Go compares strings
  bytewise, which on valid UTF-8 text is the code point order used here.
* The functions of the Go standard library that the program calls
  (`strings.*`, `path/filepath.*`, `sort.Strings`) are modelled by their
  documented behaviour on a POSIX host (separator `/`, no volume names).
* A fatal `os.Exit(1)` is the value `none` of an `Option`.
-/

namespace DwgBuild

/-- Go string: a sequence of code points. -/
abbrev Str := List Char

/-! ## `strings` -/

/-- Model of `strings.HasPrefix`. -/
def hasPrefixStr (s p : Str) : Bool := p.isPrefixOf s

/-- Model of `strings.HasSuffix`. -/
def hasSuffixStr (s p : Str) : Bool := p.reverse.isPrefixOf s.reverse

/-- Model of `strings.Contains`: some suffix of `s` starts with `sub`. -/
def containsStr : Str → Str → Bool
  | [], sub => sub.isPrefixOf []
  | c :: cs, sub => sub.isPrefixOf (c :: cs) || containsStr cs sub

/-- Model of `unicode.ToLower` on one code point: the ASCII range is mapped
as Go does, the case table of the other code points is the parameter `uni`. -/
def toLowerRune (uni : Char → Char) (c : Char) : Char :=
  if c.toNat < 128 then
    if 65 ≤ c.toNat ∧ c.toNat ≤ 90 then Char.ofNat (c.toNat + 32) else c
  else uni c

/-- Model of `strings.ToLower`. -/
def toLower (uni : Char → Char) (s : Str) : Str := s.map (toLowerRune uni)

/-- Model of `unicode.IsSpace`: the code points with the White_Space property. -/
def isSpace (c : Char) : Bool :=
  let n := c.toNat
  (9 ≤ n && n ≤ 13) || n == 32 || n == 133 || n == 160 || n == 5760 ||
  (8192 ≤ n && n ≤ 8202) || n == 8232 || n == 8233 || n == 8239 || n == 8287 ||
  n == 12288

/-- Model of `strings.TrimSpace`: white space removed at both ends. -/
def trimSpace (s : Str) : Str :=
  ((s.dropWhile isSpace).reverse.dropWhile isSpace).reverse

/-- Worker of `fields`: `cur` is the token being read, in reverse. -/
def fieldsAux : Str → Str → List Str
  | [], cur => if cur = [] then [] else [cur.reverse]
  | c :: cs, cur =>
    if isSpace c then
      (if cur = [] then fieldsAux cs [] else cur.reverse :: fieldsAux cs [])
    else fieldsAux cs (c :: cur)

/-- Model of `strings.Fields`: the maximal runs of non-space code points. -/
def fields (s : Str) : List Str := fieldsAux s []

/-- Model of `strings.Join`. -/
def joinStr (elems : List Str) (sep : Str) : Str := sep.intercalate elems

/-- Worker of `replaceAll` for a non-empty `old`: `skip` code points of a
match already replaced are still to be passed over. -/
def replaceAux (old new : Str) : Nat → Str → Str
  | _, [] => []
  | skip + 1, _ :: cs => replaceAux old new skip cs
  | 0, c :: cs =>
    if old.isPrefixOf (c :: cs) then new ++ replaceAux old new (old.length - 1) cs
    else c :: replaceAux old new 0 cs

/-- Model of `strings.ReplaceAll`: the non-overlapping matches of `old`, found
from the left, are replaced by `new`; an empty `old` matches before every code
point and at the end. -/
def replaceAll (s old new : Str) : Str :=
  if old = [] then new ++ (s.map (fun c => c :: new)).flatten
  else replaceAux old new 0 s

/-- Bytewise comparison `a <= b` of Go strings. -/
def strLe : Str → Str → Bool
  | [], _ => true
  | _ :: _, [] => false
  | a :: as, b :: bs =>
    if a.toNat < b.toNat then true
    else if b.toNat < a.toNat then false
    else strLe as bs

/-- The order `sort.Strings` sorts by. -/
def StrLE (a b : Str) : Prop := strLe a b = true

instance : DecidableRel StrLE := fun a b => inferInstanceAs (Decidable (strLe a b = true))

/-- Model of `sort.Strings`. -/
def sortStrings (l : List Str) : List Str := l.insertionSort StrLE

/-! ## `path/filepath` on a POSIX host -/

/-- Puts a code point in front of the first element of a split path. -/
def consHead (c : Char) : List Str → List Str
  | [] => [[c]]
  | h :: t => (c :: h) :: t

/-- The elements of a path between its separators. -/
def splitSlash : Str → List Str
  | [] => [[]]
  | c :: cs => if c = '/' then [] :: splitSlash cs else consHead c (splitSlash cs)

/-- One element read by `filepath.Clean`; `stack` holds the elements kept so
far, last one first. Empty and `.` elements are dropped; `..` removes the
element before it, is dropped at the root, and is kept at the start of a
relative path. -/
def cleanStep (rooted : Bool) (stack : List Str) (e : Str) : List Str :=
  if e = [] ∨ e = ['.'] then stack
  else if e = ['.', '.'] then
    match stack with
    | [] => if rooted then [] else [e]
    | top :: rest => if top = ['.', '.'] then e :: stack else rest
  else e :: stack

/-- Model of `filepath.IsAbs`. -/
def isAbs (p : Str) : Bool := hasPrefixStr p ['/']

/-- The elements `filepath.Clean` keeps, in order. -/
def cleanElems (rooted : Bool) (p : Str) : List Str :=
  ((splitSlash p).foldl (cleanStep rooted) []).reverse

/-- The path `filepath.Clean` writes for the elements it kept: the root or `.`
when there are none. -/
def renderPath (rooted : Bool) (elems : List Str) : Str :=
  if rooted then '/' :: joinStr elems ['/']
  else if elems = [] then ['.']
  else joinStr elems ['/']

/-- Model of `filepath.Clean`. -/
def clean (p : Str) : Str := renderPath (isAbs p) (cleanElems (isAbs p) p)

/-- Model of `filepath.Join`: leading empty elements are ignored, the rest is
joined by the separator and cleaned. -/
def joinPath (elems : List Str) : Str :=
  match elems.dropWhile (fun e => decide (e = [])) with
  | [] => []
  | e :: es => clean (joinStr (e :: es) ['/'])

/-- Model of `filepath.Base`. -/
def base (p : Str) : Str :=
  if p = [] then ['.']
  else
    let q := p.reverse.dropWhile (fun c => decide (c = '/'))
    let last := (q.takeWhile (fun c => decide (c ≠ '/'))).reverse
    if last = [] then ['/'] else last

/-- Model of `filepath.ToSlash`: the separator already is `/`. -/
def toSlash (p : Str) : Str := p

/-! ## Artifact staging: `findStaticLib` -/

/-- An `os.DirEntry`, as far as the program looks at it. -/
structure DirEntry where
  name : Str
  isDir : Bool
deriving DecidableEq, Repr

/-- The conventional file name of the static library. -/
def libredwgA : Str := "libredwg.a".toList

/-- The test of the first loop of `findStaticLib` on an entry name. -/
def isCandidateName (uni : Char → Char) (n : Str) : Bool :=
  hasSuffixStr n ".a".toList && hasPrefixStr n "lib".toList &&
    containsStr (toLower uni n) "dwg".toList

/-- First loop of `findStaticLib`. -/
def dwgCandidates (uni : Char → Char) (libDir : Str) (entries : List DirEntry) : List Str :=
  (entries.filter (fun e => !e.isDir && isCandidateName uni e.name)).map
    (fun e => joinPath [libDir, e.name])

/-- Second loop of `findStaticLib`. -/
def exactCandidates (libDir : Str) (entries : List DirEntry) : List Str :=
  (entries.filter (fun e => !e.isDir && decide (e.name = libredwgA))).map
    (fun e => joinPath [libDir, e.name])

/-- The candidate list of `findStaticLib` before it is sorted. -/
def candidates (uni : Char → Char) (libDir : Str) (entries : List DirEntry) : List Str :=
  if (dwgCandidates uni libDir entries).length = 0 then exactCandidates libDir entries
  else dwgCandidates uni libDir entries

/-- The selection of `findStaticLib` once the directory has been read. -/
def pickStaticLib (cands : List Str) : Str :=
  if cands.length = 0 then []
  else
    match (sortStrings cands).find? (fun c => decide (base c = libredwgA)) with
    | some c => c
    | none => (sortStrings cands).headD []

/-- `findStaticLib`: `readDir` is `os.ReadDir`, `none` when it fails (the
program then exits). -/
def findStaticLib (uni : Char → Char) (readDir : Str → Option (List DirEntry))
    (libDir : Str) : Option Str :=
  match readDir libDir with
  | none => none
  | some entries => some (pickStaticLib (candidates uni libDir entries))

/-! ## Flag rewriting: `dedupBySpace` -/

/-- One round of the loop of `dedupBySpace`: the state is the key set of the
map `seen` and the slice `out`. -/
def dedupStep (st : List Str × List Str) (f : Str) : List Str × List Str :=
  if f ∈ st.1 then st else (f :: st.1, st.2 ++ [f])

/-- `dedupBySpace`. -/
def dedupBySpace (s : Str) : Str :=
  joinStr ((fields s).foldl dedupStep ([], [])).2 [' ']

/-- The specification of token deduplication: the token at position `i` is
kept exactly when it does not occur at an earlier position. -/
def firstOccurrences (toks : List Str) : List Str :=
  (List.range toks.length).filterMap
    (fun i => if toks.getD i [] ∈ toks.take i then none else some (toks.getD i []))

/-! ## Configuration and build context -/

/-- The package-level configuration variables. -/
structure Config where
  BuildRoot : Str
  InstallRoot : Str
  FinalRoot : Str
  SourceDirName : Str
  RepoURL : Str
  RepoRef : Str
  Clean : Bool
  CGOOutDir : Str
  CGOPackage : Str
  TargetTriple : Str
  WindowsBash : Str
  PkgNameCandidates : Str

/-- `getEnvOrDefault`: `env` is `os.Getenv`, the empty string for an unset variable. -/
def getEnvOrDefault (env : Str → Str) (key dflt : Str) : Str :=
  if env key ≠ [] then env key else dflt

/-- The initialisation of the configuration variables from the environment. -/
def configFromEnv (uni : Char → Char) (env : Str → Str) : Config where
  BuildRoot := getEnvOrDefault env "DWG_BUILD_ROOT".toList
    (joinPath ["dwg_service".toList, "build".toList])
  InstallRoot := getEnvOrDefault env "DWG_INSTALL_ROOT".toList
    (joinPath ["dwg_service".toList, "build".toList, "_install".toList])
  FinalRoot := getEnvOrDefault env "DWG_FINAL_ROOT".toList
    (joinPath ["dwg_service".toList, "libs".toList, "libredwg".toList])
  SourceDirName := getEnvOrDefault env "DWG_SRC_DIRNAME".toList "libredwg".toList
  RepoURL := getEnvOrDefault env "DWG_REPO_URL".toList
    "https://github.com/LibreDWG/libredwg.git".toList
  RepoRef := getEnvOrDefault env "DWG_REPO_REF".toList "master".toList
  Clean := decide (toLower uni (env "DWG_CLEAN".toList) = "1".toList) ||
    decide (toLower uni (env "DWG_CLEAN".toList) = "true".toList)
  CGOOutDir := getEnvOrDefault env "DWG_CGO_OUT_DIR".toList "dwg_service".toList
  CGOPackage := getEnvOrDefault env "DWG_CGO_PACKAGE".toList "main".toList
  TargetTriple := env "DWG_TARGET_TRIPLE".toList
  WindowsBash := getEnvOrDefault env "DWG_WINDOWS_BASH".toList "bash".toList
  PkgNameCandidates := getEnvOrDefault env "DWG_PKG_NAMES".toList
    "libredwg,redwg,libreDWG,libredwg-0,libredwg-0.1".toList

/-- The struct `buildCtx`. -/
structure buildCtx where
  goos : Str
  goarch : Str
  target : Str
  buildRoot : Str
  srcRoot : Str
  srcDir : Str
  buildDir : Str
  installDir : Str
  finalRoot : Str
  finalInclude : Str
  finalLibDir : Str
  finalLibA : Str
  wd : Str

/-- `newBuildCtx`: `goos` and `goarch` are `runtime.GOOS` and `runtime.GOARCH`,
`getwd` is the result of `os.Getwd`, `none` when it fails (`mustGetwd` exits). -/
def newBuildCtx (cfg : Config) (goos goarch : Str) (getwd : Option Str) : Option buildCtx :=
  let target := if cfg.TargetTriple = [] then goos ++ "-".toList ++ goarch else cfg.TargetTriple
  match getwd with
  | none => none
  | some wd =>
    let buildRoot := clean cfg.BuildRoot
    let srcRoot := joinPath [buildRoot, "_src".toList]
    let srcDir := joinPath [srcRoot, cfg.SourceDirName]
    let buildDir := joinPath [buildRoot, "_build_".toList ++ target]
    let installDir := joinPath [clean cfg.InstallRoot, target]
    let finalRoot := clean cfg.FinalRoot
    let finalInclude := joinPath [finalRoot, "include".toList]
    let finalLibDir := joinPath [finalRoot, target, "lib".toList]
    some {
      goos := goos
      goarch := goarch
      target := target
      buildRoot := buildRoot
      srcRoot := srcRoot
      srcDir := srcDir
      buildDir := buildDir
      installDir := installDir
      finalRoot := finalRoot
      finalInclude := finalInclude
      finalLibDir := finalLibDir
      finalLibA := []
      wd := wd }

/-- `mustAbs`: `filepath.Abs` fails, and the program exits, only when the path
is relative and the working directory cannot be read. -/
def mustAbs (getwd : Option Str) (p : Str) : Option Str :=
  if isAbs p then some (clean p)
  else match getwd with
    | none => none
    | some wd => some (joinPath [wd, p])

/-! ## Flag rewriting: `rewriteFlagsForCgo` -/

/-- The value of `finalRootCgo`: the placeholder for the final-artifacts root. -/
def finalRootCgo : Str := "$\x7bSRCDIR\x7d/".toList ++ toSlash "libs/libredwg".toList

/-- The value of `installAbs` in `rewriteFlagsForCgo`. -/
def installAbs (getwd : Option Str) (ctx : buildCtx) : Option Str :=
  (mustAbs getwd ctx.installDir).map (fun a => toSlash (clean a))

/-- The value of `finalAbs` in `rewriteFlagsForCgo`. -/
def finalAbs (getwd : Option Str) : Option Str :=
  (mustAbs getwd (joinPath ["dwg_service".toList, "libs".toList, "libredwg".toList])).map
    (fun a => toSlash (clean a))

/-- `rewriteFlagsForCgo`. -/
def rewriteFlagsForCgo (getwd : Option Str) (ctx : buildCtx) (s : Str) : Option Str :=
  if trimSpace s = [] then some []
  else
    match installAbs getwd ctx with
    | none => none
    | some iAbs =>
      match finalAbs getwd with
      | none => none
      | some fAbs =>
        let ss := replaceAll s ['\\'] ['/']
        let ss := replaceAll ss iAbs finalRootCgo
        let ss := replaceAll ss fAbs finalRootCgo
        some (trimSpace ss)

/-! ## Binding generation: `generateCgo` -/

/-- The value of `inc` in `generateCgo`. -/
def cgoInc : Str := "$\x7bSRCDIR\x7d/libs/libredwg/include".toList

/-- The value of `libA` in `generateCgo`. -/
def cgoLibA (ctx : buildCtx) : Str :=
  ("$\x7bSRCDIR\x7d/libs/libredwg/".toList ++ ctx.target ++ "/lib".toList) ++ "/".toList ++
    base ctx.finalLibA

/-- The value of `cpp` written by `generateCgo`, from the rewritten compile flags. -/
def cgoCpp (cflags : Str) : Str :=
  dedupBySpace (trimSpace (joinStr
    ["-I".toList ++ cgoInc, "-D_LARGEFILE_SOURCE".toList, "-D_LARGEFILE64_SOURCE".toList,
      "-D_FILE_OFFSET_BITS=64".toList, cflags] " ".toList))

/-- The value of `ld` written by `generateCgo`, from the rewritten link flags
and the `ok` of flag discovery. -/
def cgoLd (ctx : buildCtx) (ldflags : Str) (ok : Bool) : Str :=
  dedupBySpace
    (if ok && decide (trimSpace ldflags ≠ []) then
      trimSpace (joinStr [cgoLibA ctx, ldflags] " ".toList)
    else
      trimSpace (joinStr [cgoLibA ctx, "-lm".toList, "-lz".toList, "-liconv".toList] " ".toList))

/-- The build constraint and the package clause written by `generateCgo`. -/
def cgoHeader (cfg : Config) (ctx : buildCtx) : Str :=
  "//go:build ".toList ++ ctx.goos ++ " && ".toList ++ ctx.goarch ++ "\n\n".toList ++
    "package ".toList ++ cfg.CGOPackage ++ "\n\n".toList

/-- The compile-flags line written by `generateCgo`. -/
def cppLine (cflags : Str) : Str :=
  "// #cgo CPPFLAGS: ".toList ++ cgoCpp cflags ++ "\n".toList

/-- The link-flags line written by `generateCgo`. -/
def ldLine (ctx : buildCtx) (ldflags : Str) (ok : Bool) : Str :=
  "// #cgo LDFLAGS: ".toList ++ cgoLd ctx ldflags ok ++ "\n".toList

/-- The import declaration written by `generateCgo`. -/
def importLine : Str := "import \"C\"\n".toList

/-- The text `generateCgo` writes to the binding file; `disc` is the result of
`tryPkgConfig`. The result is `none` when the program exits in `mustAbs`.
Creating the output directory and the file is left to the host. -/
def generateCgo (cfg : Config) (getwd : Option Str) (ctx : buildCtx)
    (disc : Str × Str × Bool) : Option Str :=
  match rewriteFlagsForCgo getwd ctx disc.1 with
  | none => none
  | some cflags =>
    match rewriteFlagsForCgo getwd ctx disc.2.1 with
    | none => none
    | some ldflags =>
      some (cgoHeader cfg ctx ++ cppLine cflags ++ ldLine ctx ldflags disc.2.2 ++ importLine)

/-- The context once `syncToFinal` has staged the library `libA`: the field
`finalLibA` holds the path of the copy. -/
def withFinalLibA (ctx : buildCtx) (libA : Str) : buildCtx :=
  { ctx with finalLibA := joinPath [ctx.finalLibDir, base libA] }

/-- Whether replacing by `new` cannot produce a copy of `old`: the first code
point of `new` does not occur in `old`, and no non-empty proper suffix of `new`
starts `old` or is started by `old`. -/
def clashFree (old new : Str) : Bool :=
  (new.take 1).all (fun c => !old.elem c) &&
    (new.drop 1).tails.all (fun v => v.isEmpty || (!v.isPrefixOf old && !old.isPrefixOf v))
/-! ## Host actions: `mustMkdirAll`, `mustRemoveAll`, `runCmd`, `runBash` -/

/-- An action of the program on its host. -/
inductive Op where
  | mkdirAll (path : Str)
  | removeAll (path : Str)
  | run (dir name : Str) (args : List Str)
  | bash (dir script : Str)
  | stat (path : Str)
  | lookPath (tool : Str)
  | output (name : Str) (args : List Str) (env : List Str)
  | outputBash (dir script : Str) (env : List Str)
deriving DecidableEq, Repr

/-- The host: whether an action succeeds (returns no error), given the actions
made before it. -/
abbrev Host := List Op → Op → Bool

/-- A run of the program: the actions made so far, and whether the program is
still running (`false` after `os.Exit(1)`). -/
structure Run where
  trace : List Op
  alive : Bool
deriving DecidableEq, Repr

/-- The start of a run. -/
def Run.start : Run := { trace := [], alive := true }

/-- An action whose error makes the program exit. -/
def Run.must (h : Host) (op : Op) (r : Run) : Run :=
  if r.alive then { trace := r.trace ++ [op], alive := h r.trace op } else r

/-- An action whose error is discarded. -/
def Run.discard (_h : Host) (op : Op) (r : Run) : Run :=
  if r.alive then { trace := r.trace ++ [op], alive := true } else r

/-- `mustMkdirAll`: exits when `os.MkdirAll` returns an error. -/
def mustMkdirAll (h : Host) (path : Str) (r : Run) : Run := r.must h (Op.mkdirAll path)

/-- `mustRemoveAll`: the body is `_ = os.RemoveAll(path)`. -/
def mustRemoveAll (h : Host) (path : Str) (r : Run) : Run := r.discard h (Op.removeAll path)

/-- `runCmd`: exits when the command fails. -/
def runCmd (h : Host) (dir name : Str) (args : List Str) (r : Run) : Run :=
  r.must h (Op.run dir name args)

/-- `runBash`: exits when the script fails. -/
def runBash (h : Host) (dir script : Str) (r : Run) : Run := r.must h (Op.bash dir script)

/-- `msysPath`: a drive-letter path `C:/x` becomes `/c/x` (the test reads the
first three bytes, so the first code point must be a single byte). -/
def msysPath (uni : Char → Char) (getwd : Option Str) (path : Str) : Option Str :=
  (mustAbs getwd path).map (fun a =>
    match toSlash a with
    | d :: ':' :: '/' :: rest =>
      if d.toNat < 128 then '/' :: (toLower uni [d] ++ '/' :: rest) else toSlash a
    | p => p)

/-- `configureAndBuild`. -/
def configureAndBuild (uni : Char → Char) (h : Host) (getwd : Option Str) (ctx : buildCtx)
    (r : Run) : Run :=
  let r := mustRemoveAll h ctx.buildDir r
  let r := mustRemoveAll h ctx.installDir r
  let r := mustMkdirAll h ctx.buildDir r
  let r := mustMkdirAll h ctx.installDir r
  if r.alive then
    match mustAbs getwd ctx.installDir with
    | none => { r with alive := false }
    | some a =>
      let configArgs := ["--prefix=".toList ++ toSlash a, "--disable-shared".toList,
        "--enable-static".toList]
      if ctx.goos = "windows".toList then
        match msysPath uni getwd ctx.buildDir with
        | none => { r with alive := false }
        | some mb =>
          match msysPath uni getwd ctx.srcDir with
          | none => { r with alive := false }
          | some ms =>
            runBash h ctx.buildDir
              (joinStr ["set -e".toList, "cd \"".toList ++ mb ++ "\"".toList,
                "\"".toList ++ ms ++ "/configure\" ".toList ++ joinStr configArgs " ".toList,
                "make -j".toList, "make install".toList] "\n".toList) r
      else
        let r := runCmd h ctx.buildDir (joinPath [ctx.srcDir, "configure".toList]) configArgs r
        let r := runCmd h ctx.buildDir "make".toList ["-j".toList] r
        runCmd h ctx.buildDir "make".toList ["install".toList] r
  else r

/-- A host on which every directory creation fails and every other action
succeeds. -/
def mkdirFails : Host := fun _ op =>
  match op with
  | Op.mkdirAll _ => false
  | _ => true

/-- A host on which every recursive removal fails and every other action
succeeds. -/
def removalFails : Host := fun _ op =>
  match op with
  | Op.removeAll _ => false
  | _ => true

/-! ## Source acquisition: `ensureSource` -/

/-- `fileExists`: whether `os.Stat` returns no error, and the run with the
query recorded. -/
def fileExists (h : Host) (path : Str) (r : Run) : Bool × Run :=
  (h r.trace (Op.stat path), r.discard h (Op.stat path))

/-- `ensureSource`. -/
def ensureSource (cfg : Config) (h : Host) (ctx : buildCtx) (r : Run) : Run :=
  let r := mustMkdirAll h ctx.srcRoot r
  let r := if cfg.Clean then mustMkdirAll h ctx.srcRoot (mustRemoveAll h ctx.buildRoot r) else r
  if r.alive then
    let found := fileExists h ctx.srcDir r
    let r := if !found.1 then
        runCmd h ctx.srcRoot "git".toList ["clone".toList, cfg.RepoURL, cfg.SourceDirName] found.2
      else
        runCmd h ctx.srcDir "git".toList ["fetch".toList, "--all".toList, "--tags".toList] found.2
    let r := runCmd h ctx.srcDir "git".toList ["checkout".toList, cfg.RepoRef] r
    runCmd h ctx.srcDir "git".toList
      ["submodule".toList, "update".toList, "--init".toList, "--recursive".toList] r
  else r

/-! ## A file system for the host -/

/-- The elements of a path after `filepath.Clean`. -/
def pathElems (p : Str) : List Str := cleanElems (isAbs p) p

/-- Whether the path `q` names `p` or an entry below `p`, both taken from the
same working directory. -/
def isWithin (q p : Str) : Bool :=
  (isAbs q == isAbs p) && (pathElems p).isPrefixOf (pathElems q) &&
    !(((pathElems q).drop (pathElems p).length).head? == some ['.', '.'])

/-- A host with a file system: the paths that exist at the start, the actions
that fail, and what a command does to the file system. A failed action is
taken to change nothing. -/
structure FsModel where
  init : Str → Bool
  fails : List Op → Op → Bool
  effect : Op → (Str → Bool) → (Str → Bool)

/-- The file system after one action: `os.MkdirAll` creates the path and its
parents, `os.RemoveAll` removes the path and everything below it. -/
def fsStep (m : FsModel) (done : List Op) (op : Op) (st : Str → Bool) : Str → Bool :=
  if m.fails done op then st
  else
    match op with
    | Op.mkdirAll p => fun q => st q || isWithin p q
    | Op.removeAll p => fun q => st q && !isWithin q p
    | Op.run _ _ _ => m.effect op st
    | Op.bash _ _ => m.effect op st
    | _ => st

/-- The file system after the actions `tr`, made in this order from the start. -/
def fsAfter (m : FsModel) (tr : List Op) : Str → Bool :=
  (tr.foldl (fun acc op => (acc.1 ++ [op], fsStep m acc.1 op acc.2)) ([], m.init)).2

/-- The host of a file-system model: `os.Stat` succeeds on the paths that exist. -/
def fsHost (m : FsModel) : Host := fun tr op =>
  !m.fails tr op &&
    (match op with
      | Op.stat p => fsAfter m tr p
      | _ => true)

/-- A host on which everything below `dwg_service` exists at the start, no
action fails and commands leave the file system as it is. -/
def serviceTree : FsModel where
  init := fun q => isWithin q "dwg_service".toList
  fails := fun _ _ => false
  effect := fun _ st => st

/-! ## Terms of the statements about `ensureSource` -/

/-- The clone command of `ensureSource`. -/
def gitClone (cfg : Config) (ctx : buildCtx) : Op :=
  Op.run ctx.srcRoot "git".toList ["clone".toList, cfg.RepoURL, cfg.SourceDirName]

/-- The fetch command of `ensureSource`. -/
def gitFetch (ctx : buildCtx) : Op :=
  Op.run ctx.srcDir "git".toList ["fetch".toList, "--all".toList, "--tags".toList]

/-- The checkout command of `ensureSource`. -/
def gitCheckout (cfg : Config) (ctx : buildCtx) : Op :=
  Op.run ctx.srcDir "git".toList ["checkout".toList, cfg.RepoRef]

/-- The submodule command of `ensureSource`. -/
def gitSubmodule (ctx : buildCtx) : Op :=
  Op.run ctx.srcDir "git".toList
    ["submodule".toList, "update".toList, "--init".toList, "--recursive".toList]

/-- The version-control commands among the actions `tr`. -/
def gitCmds (tr : List Op) : List Op :=
  tr.filter (fun op =>
    match op with
    | Op.run _ name _ => decide (name = "git".toList)
    | _ => false)

/-- The actions of `ensureSource` before it looks for the source directory. -/
def ensureSetup (cfg : Config) (ctx : buildCtx) : List Op :=
  Op.mkdirAll ctx.srcRoot ::
    (if cfg.Clean then [Op.removeAll ctx.buildRoot, Op.mkdirAll ctx.srcRoot] else [])

/-- The actions of a run of `ensureSource` in which no action fails; `present`
is the answer of `fileExists` for the source directory. -/
def ensurePlan (cfg : Config) (ctx : buildCtx) (present : Bool) : List Op :=
  ensureSetup cfg ctx ++
    [Op.stat ctx.srcDir, if present then gitFetch ctx else gitClone cfg ctx,
      gitCheckout cfg ctx, gitSubmodule ctx]

/-- A sequence of host actions, each marked `true` when its error makes the
program exit and `false` when its error is discarded. -/
def runSteps (h : Host) : List (Bool × Op) → Run → Run
  | [], r => r
  | (m, op) :: rest, r => runSteps h rest (if m then r.must h op else r.discard h op)

/-- The actions of `ensureSource` with their marks. -/
def ensureSteps (cfg : Config) (ctx : buildCtx) (present : Bool) : List (Bool × Op) :=
  (true, Op.mkdirAll ctx.srcRoot) ::
    ((if cfg.Clean then [(false, Op.removeAll ctx.buildRoot), (true, Op.mkdirAll ctx.srcRoot)]
      else []) ++
    [(false, Op.stat ctx.srcDir), (true, if present then gitFetch ctx else gitClone cfg ctx),
      (true, gitCheckout cfg ctx), (true, gitSubmodule ctx)])

/-! ## Flag discovery: `pkgNames`, `tryPkgConfig` -/

/-- Model of `strings.Split` with a separator of one code point. -/
def splitOnChar (sep : Char) : Str → List Str
  | [] => [[]]
  | c :: cs => if c = sep then [] :: splitOnChar sep cs else consHead c (splitOnChar sep cs)

/-- `pkgNames`: the loop appends every trimmed segment that is not empty. -/
def pkgNames (cfg : Config) : List Str :=
  (splitOnChar ',' cfg.PkgNameCandidates).foldl
    (fun acc p => if trimSpace p ≠ [] then acc ++ [trimSpace p] else acc) []

/-- The captured standard output of a command, given the actions made before it. -/
abbrev Stdout := List Op → Op → Str

/-- Model of `os.PathListSeparator`. -/
def pathListSeparator (goos : Str) : Str :=
  if goos = "windows".toList then ";".toList else ":".toList

/-- The entry `PKG_CONFIG_PATH=...` of `extraEnv`, from the absolute install
directory. -/
def pkgConfigEnv (goos abs : Str) : Str :=
  "PKG_CONFIG_PATH=".toList ++
    joinStr [toSlash (joinPath [abs, "lib".toList, "pkgconfig".toList]),
      toSlash (joinPath [abs, "lib64".toList, "pkgconfig".toList]),
      toSlash (joinPath [abs, "share".toList, "pkgconfig".toList])] (pathListSeparator goos)

/-- The compile-flags query for the candidate `n`: through bash on windows,
direct elsewhere. -/
def cflagsQuery (goos wd : Str) (env : List Str) (n : Str) : Op :=
  if goos = "windows".toList then
    Op.outputBash wd ("pkg-config --cflags ".toList ++ n ++ " 2>/dev/null || true".toList) env
  else Op.output "pkg-config".toList ["--cflags".toList, n] env

/-- The static link-flags query for the candidate `n`. -/
def libsQuery (goos wd : Str) (env : List Str) (n : Str) : Op :=
  if goos = "windows".toList then
    Op.outputBash wd
      ("pkg-config --libs --static ".toList ++ n ++ " 2>/dev/null || true".toList) env
  else Op.output "pkg-config".toList ["--libs".toList, "--static".toList, n] env

/-- The loop over the candidates on windows: `outputBash` exits when the shell
fails. -/
def pkgLoopBash (h : Host) (out : Stdout) (wd : Str) (env : List Str) :
    List Str → Run → Run × (Str × Str × Bool)
  | [], r => (r, ([], [], false))
  | n :: ns, r =>
    let cf := trimSpace (out r.trace (cflagsQuery "windows".toList wd env n))
    let r1 := r.must h (cflagsQuery "windows".toList wd env n)
    if r1.alive then
      let ls := trimSpace (out r1.trace (libsQuery "windows".toList wd env n))
      let r2 := r1.must h (libsQuery "windows".toList wd env n)
      if r2.alive then
        if cf ≠ [] ∨ ls ≠ [] then (r2, (cf, ls, true)) else pkgLoopBash h out wd env ns r2
      else (r2, ([], [], false))
    else (r1, ([], [], false))

/-- The loop over the candidates elsewhere: the errors of both commands are
discarded. -/
def pkgLoopDirect (h : Host) (out : Stdout) (goos wd : Str) (env : List Str) :
    List Str → Run → Run × (Str × Str × Bool)
  | [], r => (r, ([], [], false))
  | n :: ns, r =>
    let cf := trimSpace (out r.trace (cflagsQuery goos wd env n))
    let r1 := r.discard h (cflagsQuery goos wd env n)
    let ls := trimSpace (out r1.trace (libsQuery goos wd env n))
    let r2 := r1.discard h (libsQuery goos wd env n)
    if cf ≠ [] ∨ ls ≠ [] then (r2, (cf, ls, true)) else pkgLoopDirect h out goos wd env ns r2

/-- `tryPkgConfig`: the run afterwards and the triple returned (of no meaning
when the program has exited). -/
def tryPkgConfig (cfg : Config) (h : Host) (out : Stdout) (getwd : Option Str) (ctx : buildCtx)
    (r : Run) : Run × (Str × Str × Bool) :=
  match mustAbs getwd ctx.installDir with
  | none => ({ r with alive := false }, ([], [], false))
  | some a =>
    if ctx.goos = "windows".toList then
      pkgLoopBash h out ctx.wd [pkgConfigEnv ctx.goos a] (pkgNames cfg) r
    else if h r.trace (Op.lookPath "pkg-config".toList) then
      pkgLoopDirect h out ctx.goos ctx.wd [pkgConfigEnv ctx.goos a] (pkgNames cfg)
        (r.discard h (Op.lookPath "pkg-config".toList))
    else (r.discard h (Op.lookPath "pkg-config".toList), ([], [], false))

/-! ## Terms of the statements about `tryPkgConfig` -/

/-- The two queries for each of the candidates `ns`, in order. -/
def pkgQueries (goos wd : Str) (env : List Str) (ns : List Str) : List Op :=
  (ns.map (fun n => [cflagsQuery goos wd env n, libsQuery goos wd env n])).flatten

/-- The trimmed outputs of the two queries for the candidate `n`, made after
the actions `tr`. -/
def pkgYield (out : Stdout) (goos wd : Str) (env : List Str) (tr : List Op) (n : Str) :
    Str × Str :=
  (trimSpace (out tr (cflagsQuery goos wd env n)),
    trimSpace (out (tr ++ [cflagsQuery goos wd env n]) (libsQuery goos wd env n)))

/-- The candidates `ns`, queried in order after the actions `t0`, all give two
empty outputs. -/
def NoYield (out : Stdout) (goos wd : Str) (env : List Str) (t0 : List Op) (ns : List Str) :
    Prop :=
  ∀ a m b, ns = a ++ m :: b →
    pkgYield out goos wd env (t0 ++ pkgQueries goos wd env a) m = ([], [])

/-- What flag discovery returns for the candidates `names` queried in order
after the actions `t0`: the outputs of the first candidate with a non-empty
output, and the queries up to it; or not found, after the queries for all. -/
def FirstYield (out : Stdout) (goos wd : Str) (env : List Str) (t0 : List Op)
    (names : List Str) (res : Str × Str × Bool) (tr : List Op) : Prop :=
  (∃ pre n post, names = pre ++ n :: post ∧
      NoYield out goos wd env t0 pre ∧
      pkgYield out goos wd env (t0 ++ pkgQueries goos wd env pre) n ≠ ([], []) ∧
      res = ((pkgYield out goos wd env (t0 ++ pkgQueries goos wd env pre) n).1,
        (pkgYield out goos wd env (t0 ++ pkgQueries goos wd env pre) n).2, true) ∧
      tr = t0 ++ pkgQueries goos wd env (pre ++ [n])) ∨
    (NoYield out goos wd env t0 names ∧ res = ([], [], false) ∧
      tr = t0 ++ pkgQueries goos wd env names)

/-- A host with `pkg-config` on which only the candidate `redwg` is known. -/
def redwgOnly : Stdout := fun _ op =>
  match op with
  | Op.output _ args _ =>
    if args = ["--cflags".toList, "redwg".toList] then "-I/opt/redwg/include\n".toList
    else if args = ["--libs".toList, "--static".toList, "redwg".toList] then
      "-L/opt/redwg/lib -lredwg -lm\n".toList
    else []
  | _ => []

/-! ## Predicates used in the statements -/

/-- A single ordinary path element: not empty, no separator, neither `.` nor `..`. -/
def PlainElem (x : Str) : Prop := x ≠ [] ∧ '/' ∉ x ∧ x ≠ ['.'] ∧ x ≠ ['.', '.']

instance (x : Str) : Decidable (PlainElem x) := by unfold PlainElem; infer_instance

/-- What `filepath.Clean` keeps on its stack: non-empty elements without separator. -/
def GoodStack (S : List Str) : Prop := ∀ e ∈ S, e ≠ [] ∧ '/' ∉ e

/-- A token: not empty and free of white space. -/
def GoodToken (t : Str) : Prop := t ≠ [] ∧ ∀ c ∈ t, isSpace c = false

/-- The four tokens `generateCgo` puts in front of the discovered compile flags. -/
def cppFixed : List Str :=
  ["-I$\x7bSRCDIR\x7d/libs/libredwg/include".toList, "-D_LARGEFILE_SOURCE".toList,
    "-D_LARGEFILE64_SOURCE".toList, "-D_FILE_OFFSET_BITS=64".toList]

/-- The stack of `filepath.Clean`, last element first: ordinary elements, below
them the `..` elements that start a relative path. -/
def StackOK (r : Bool) (st : List Str) : Prop :=
  ∃ (k : Nat) (plains : List Str), st = plains ++ List.replicate k ['.', '.'] ∧
    (∀ x ∈ plains, PlainElem x) ∧ (r = true → k = 0)

/-! # Theorems -/

/-! ## Facts about the path functions -/

theorem splitSlash_ne_nil (p : Str) : splitSlash p ≠ [] := by
  cases p with
  | nil => simp [splitSlash]
  | cons c cs =>
    simp only [splitSlash]
    split_ifs
    · simp
    · cases splitSlash cs <;> simp [consHead]

theorem consHead_append (c : Char) (l m : List Str) (h : l ≠ []) :
    consHead c (l ++ m) = consHead c l ++ m := by
  cases l with
  | nil => exact absurd rfl h
  | cons a t => simp [consHead]

theorem splitSlash_append_slash (a b : Str) :
    splitSlash (a ++ '/' :: b) = splitSlash a ++ splitSlash b := by
  induction a with
  | nil => simp [splitSlash]
  | cons c a ih =>
    simp only [List.cons_append, splitSlash]
    split_ifs
    · simp [ih]
    · have ih2 : splitSlash (a.append ('/' :: b)) = splitSlash a ++ splitSlash b := ih
      rw [ih2, consHead_append _ _ _ (splitSlash_ne_nil a)]

theorem splitSlash_of_no_slash (x : Str) (h : '/' ∉ x) : splitSlash x = [x] := by
  induction x with
  | nil => simp [splitSlash]
  | cons c x ih =>
    simp only [List.mem_cons, not_or] at h
    simp only [splitSlash]
    rw [if_neg (fun hc => h.1 hc.symm), ih h.2]
    simp [consHead]

theorem no_slash_of_mem_splitSlash (p : Str) : ∀ e ∈ splitSlash p, '/' ∉ e := by
  induction p with
  | nil => simp [splitSlash]
  | cons c p ih =>
    intro e he
    simp only [splitSlash] at he
    split_ifs at he with hc
    · rcases List.mem_cons.1 he with h | h
      · simp [h]
      · exact ih e h
    · cases hs : splitSlash p with
      | nil => exact absurd hs (splitSlash_ne_nil p)
      | cons a t =>
        rw [hs] at he ih
        simp only [consHead, List.mem_cons] at he
        rcases he with h | h
        · subst h
          simp only [List.mem_cons, not_or]
          exact ⟨fun h1 => hc h1.symm, ih a (List.mem_cons_self _ _)⟩
        · exact ih e (List.mem_cons_of_mem _ h)

theorem good_dotdot : (['.', '.'] : Str) ≠ [] ∧ '/' ∉ (['.', '.'] : Str) := by decide

theorem cleanStep_good (r : Bool) (S : List Str) (e : Str) (hS : GoodStack S)
    (he : '/' ∉ e) : GoodStack (cleanStep r S e) := by
  unfold cleanStep
  by_cases h1 : e = [] ∨ e = ['.']
  · rw [if_pos h1]; exact hS
  · rw [if_neg h1]
    by_cases h2 : e = ['.', '.']
    · rw [if_pos h2]
      subst h2
      cases S with
      | nil =>
        cases r
        · intro x hx
          simp only [Bool.false_eq_true, if_false, List.mem_singleton] at hx
          subst hx; exact good_dotdot
        · intro x hx; simp at hx
      | cons top rest =>
        by_cases h3 : top = ['.', '.']
        · simp only [if_pos h3]
          intro x hx
          rcases List.mem_cons.1 hx with h | h
          · subst h; exact good_dotdot
          · exact hS x h
        · simp only [if_neg h3]
          intro x hx; exact hS x (List.mem_cons_of_mem _ hx)
    · rw [if_neg h2]
      intro x hx
      rcases List.mem_cons.1 hx with h | h
      · subst h
        exact ⟨fun h0 => h1 (Or.inl h0), he⟩
      · exact hS x h

theorem foldl_cleanStep_good (r : Bool) (l : List Str) (S : List Str) (hS : GoodStack S)
    (hl : ∀ e ∈ l, '/' ∉ e) : GoodStack (l.foldl (cleanStep r) S) := by
  induction l generalizing S with
  | nil => exact hS
  | cons a l ih =>
    simp only [List.foldl_cons]
    exact ih _ (cleanStep_good r S a hS (hl a (List.mem_cons_self _ _)))
      (fun e he => hl e (List.mem_cons_of_mem _ he))

theorem cleanElems_good (r : Bool) (p : Str) : GoodStack (cleanElems r p) := by
  intro e he
  unfold cleanElems at he
  rw [List.mem_reverse] at he
  exact foldl_cleanStep_good r _ [] (by intro x hx; simp at hx)
    (no_slash_of_mem_splitSlash p) e he

theorem joinStr_nil (sep : Str) : joinStr [] sep = [] := by
  simp [joinStr, List.intercalate]

theorem joinStr_singleton (a sep : Str) : joinStr [a] sep = a := by
  simp [joinStr, List.intercalate]

theorem joinStr_cons_cons (a b : Str) (t : List Str) (sep : Str) :
    joinStr (a :: b :: t) sep = a ++ sep ++ joinStr (b :: t) sep := by
  simp [joinStr, List.intercalate]

theorem joinStr_snoc (S : List Str) (x sep : Str) (h : S ≠ []) :
    joinStr (S ++ [x]) sep = joinStr S sep ++ sep ++ x := by
  induction S with
  | nil => exact absurd rfl h
  | cons a t ih =>
    cases t with
    | nil => simp [joinStr_cons_cons, joinStr_singleton]
    | cons b t =>
      have := ih (by simp)
      simp only [List.cons_append] at this ⊢
      rw [joinStr_cons_cons, this, joinStr_cons_cons]
      simp [List.append_assoc]

theorem joinStr_good_ne_nil (S : List Str) (hS : GoodStack S) (h : S ≠ []) :
    ∃ c t, joinStr S ['/'] = c :: t ∧ c ≠ '/' := by
  cases S with
  | nil => exact absurd rfl h
  | cons a t =>
    obtain ⟨ha, hs⟩ := hS a (List.mem_cons_self _ _)
    cases a with
    | nil => exact absurd rfl ha
    | cons c a =>
      have hc : c ≠ '/' := fun hc => hs (by simp [hc])
      cases t with
      | nil => exact ⟨c, a, by simp [joinStr_singleton], hc⟩
      | cons b t =>
        refine ⟨c, a ++ ['/'] ++ joinStr (b :: t) ['/'], ?_, hc⟩
        rw [joinStr_cons_cons]; simp

theorem isAbs_cons (c : Char) (t : Str) : isAbs (c :: t) = decide (c = '/') := by
  by_cases h : c = '/'
  · subst h; simp [isAbs, hasPrefixStr, List.isPrefixOf]
  · have h2 : ¬ '/' = c := fun h2 => h h2.symm
    simp [isAbs, hasPrefixStr, List.isPrefixOf, h, h2]

theorem isAbs_nil : isAbs [] = false := by
  simp [isAbs, hasPrefixStr, List.isPrefixOf]

theorem clean_ne_nil (p : Str) : clean p ≠ [] := by
  unfold clean renderPath
  split_ifs with h1 h2
  · simp
  · simp
  · obtain ⟨c, t, h, _⟩ := joinStr_good_ne_nil _ (cleanElems_good (isAbs p) p) h2
    rw [h]; simp

theorem isAbs_clean (p : Str) : isAbs (clean p) = isAbs p := by
  unfold clean renderPath
  split_ifs with h1 h2
  · rw [isAbs_cons, h1]; simp
  · rw [isAbs_cons]; simp at h1; rw [h1]; decide
  · obtain ⟨c, t, h, hc⟩ := joinStr_good_ne_nil _ (cleanElems_good (isAbs p) p) h2
    rw [h, isAbs_cons]; simp at h1; rw [h1]; simp [hc]

theorem isAbs_append (p q : Str) (h : p ≠ []) : isAbs (p ++ q) = isAbs p := by
  cases p with
  | nil => exact absurd rfl h
  | cons c t => simp [isAbs_cons]

theorem cleanStep_plain (r : Bool) (S : List Str) (x : Str) (hx : PlainElem x) :
    cleanStep r S x = x :: S := by
  obtain ⟨h0, _, h1, h2⟩ := hx
  unfold cleanStep
  rw [if_neg (by intro h; rcases h with h | h; exact h0 h; exact h1 h), if_neg h2]

theorem cleanElems_snoc (r : Bool) (p x : Str) (hx : PlainElem x) :
    cleanElems r (p ++ '/' :: x) = cleanElems r p ++ [x] := by
  unfold cleanElems
  rw [splitSlash_append_slash, splitSlash_of_no_slash x hx.2.1, List.foldl_append]
  simp [cleanStep_plain r _ x hx]

theorem renderPath_snoc (r : Bool) (S : List Str) (x : Str) (h : S ≠ []) :
    renderPath r (S ++ [x]) = renderPath r S ++ '/' :: x := by
  unfold renderPath
  cases r
  · simp [h, joinStr_snoc S x ['/'] h]
  · simp [joinStr_snoc S x ['/'] h]

theorem clean_snoc (p x : Str) (hx : PlainElem x) (hp : p ≠ [])
    (hS : cleanElems (isAbs p) p ≠ []) : clean (p ++ '/' :: x) = clean p ++ '/' :: x := by
  unfold clean
  rw [isAbs_append p _ hp, cleanElems_snoc _ p x hx, renderPath_snoc _ _ x hS]

theorem takeWhile_append_stop {α : Type} (q : α → Bool) (l : List α) (c : α) (rest : List α)
    (h : ∀ a ∈ l, q a = true) (hc : q c = false) : (l ++ c :: rest).takeWhile q = l := by
  induction l with
  | nil => simp [List.takeWhile, hc]
  | cons d u ih =>
    rw [List.cons_append, List.takeWhile_cons_of_pos (h d (List.mem_cons_self _ _)),
      ih (fun a ha => h a (List.mem_cons_of_mem _ ha))]

theorem takeWhile_all {α : Type} (q : α → Bool) (l : List α)
    (h : ∀ a ∈ l, q a = true) : l.takeWhile q = l := by
  induction l with
  | nil => simp
  | cons d u ih =>
    rw [List.takeWhile_cons_of_pos (h d (List.mem_cons_self _ _)),
      ih (fun a ha => h a (List.mem_cons_of_mem _ ha))]

theorem dropWhile_head_neg {α : Type} (q : α → Bool) (l : List α)
    (h : ∀ a, l.head? = some a → q a = false) : l.dropWhile q = l := by
  cases l with
  | nil => rfl
  | cons d u => exact List.dropWhile_cons_of_neg (by simp [h d rfl])

theorem base_snoc (pre x : Str) (h0 : x ≠ []) (hs : '/' ∉ x) :
    base (pre ++ '/' :: x) = x := by
  have hrev : ∀ c ∈ x.reverse, c ≠ '/' := by
    intro c hc h; subst h; exact hs (List.mem_reverse.1 hc)
  have hne : x.reverse ≠ [] := by simpa using h0
  unfold base
  rw [if_neg (by simp)]
  simp only [List.reverse_append, List.reverse_cons, List.append_assoc, List.singleton_append]
  rw [dropWhile_head_neg, takeWhile_append_stop _ _ _ _ (fun a ha => by simpa using hrev a ha)
    (by simp)]
  · simp [h0]
  · intro a ha
    cases hx : x.reverse with
    | nil => exact absurd hx hne
    | cons c t =>
      rw [hx] at ha
      simp only [List.cons_append, List.head?_cons, Option.some.injEq] at ha
      subst ha
      simpa using hrev c (by rw [hx]; exact List.mem_cons_self _ _)

theorem base_plain (x : Str) (h0 : x ≠ []) (hs : '/' ∉ x) : base x = x := by
  have hrev : ∀ c ∈ x.reverse, c ≠ '/' := by
    intro c hc h; subst h; exact hs (List.mem_reverse.1 hc)
  have hne : x.reverse ≠ [] := by simpa using h0
  unfold base
  rw [if_neg h0]
  simp only
  rw [dropWhile_head_neg, takeWhile_all _ _ (fun a ha => by simpa using hrev a ha)]
  · simp [h0]
  · intro a ha
    cases hx : x.reverse with
    | nil => exact absurd hx hne
    | cons c t =>
      rw [hx] at ha
      simp only [List.head?_cons, Option.some.injEq] at ha
      subst ha
      simpa using hrev c (by rw [hx]; exact List.mem_cons_self _ _)

theorem base_renderPath_snoc (r : Bool) (S : List Str) (x : Str) (hx : PlainElem x) :
    base (renderPath r (S ++ [x])) = x := by
  by_cases hS : S = []
  · subst hS
    cases r
    · simp only [renderPath, List.nil_append, joinStr_singleton]
      simpa using base_plain x hx.1 hx.2.1
    · simp only [renderPath, List.nil_append, joinStr_singleton, if_true]
      exact base_snoc [] x hx.1 hx.2.1
  · rw [renderPath_snoc r S x hS]
    exact base_snoc _ x hx.1 hx.2.1

theorem base_clean_snoc (p x : Str) (hx : PlainElem x) : base (clean (p ++ '/' :: x)) = x := by
  unfold clean
  rw [cleanElems_snoc _ p x hx]
  exact base_renderPath_snoc _ _ x hx

theorem clean_plain (x : Str) (hx : PlainElem x) : clean x = x := by
  have h1 : isAbs x = false := by
    obtain ⟨h0, hs, _, _⟩ := hx
    cases x with
    | nil => exact absurd rfl h0
    | cons c t =>
      rw [isAbs_cons]
      have : c ≠ '/' := fun h => hs (by simp [h])
      simp [this]
  unfold clean
  rw [h1]
  unfold cleanElems
  rw [splitSlash_of_no_slash x hx.2.1]
  simp [cleanStep_plain false [] x hx, renderPath, joinStr_singleton]

theorem joinPath_pair (d x : Str) (hx : x ≠ []) :
    joinPath [d, x] = if d = [] then clean x else clean (d ++ '/' :: x) := by
  unfold joinPath
  by_cases hd : d = []
  · subst hd
    cases x with
    | nil => exact absurd rfl hx
    | cons c t => simp [joinStr_singleton]
  · cases d with
    | nil => exact absurd rfl hd
    | cons c t => simp [joinStr_cons_cons, joinStr_singleton]

theorem base_joinPath (d x : Str) (hx : PlainElem x) : base (joinPath [d, x]) = x := by
  rw [joinPath_pair d x hx.1]
  split_ifs
  · rw [clean_plain x hx]; exact base_plain x hx.1 hx.2.1
  · exact base_clean_snoc d x hx

theorem joinPath_pair_ne_nil (d x : Str) (hx : x ≠ []) : joinPath [d, x] ≠ [] := by
  rw [joinPath_pair d x hx]
  split_ifs <;> exact clean_ne_nil _

/-! ## Facts about `sort.Strings` -/

theorem strLe_total (a b : Str) : strLe a b = true ∨ strLe b a = true := by
  induction a generalizing b with
  | nil => left; cases b <;> rfl
  | cons x a ih =>
    cases b with
    | nil => right; rfl
    | cons y b =>
      simp only [strLe]
      by_cases h1 : x.toNat < y.toNat
      · left; simp [h1]
      · by_cases h2 : y.toNat < x.toNat
        · right; simp [h2]
        · simp only [h1, h2, if_false]
          exact ih b

theorem strLe_trans (a b c : Str) (h1 : strLe a b = true) (h2 : strLe b c = true) :
    strLe a c = true := by
  induction a generalizing b c with
  | nil => cases c <;> rfl
  | cons x a ih =>
    cases b with
    | nil => simp [strLe] at h1
    | cons y b =>
      cases c with
      | nil => simp [strLe] at h2
      | cons z c =>
        simp only [strLe] at h1 h2 ⊢
        by_cases hxy : x.toNat < y.toNat
        · by_cases hyz : y.toNat < z.toNat
          · have : x.toNat < z.toNat := by omega
            simp [this]
          · by_cases hzy : z.toNat < y.toNat
            · simp [hyz, hzy] at h2
            · have : x.toNat < z.toNat := by omega
              simp [this]
        · by_cases hyx : y.toNat < x.toNat
          · simp [hxy, hyx] at h1
          · simp only [hxy, hyx, if_false] at h1
            by_cases hyz : y.toNat < z.toNat
            · have : x.toNat < z.toNat := by omega
              simp [this]
            · by_cases hzy : z.toNat < y.toNat
              · simp [hyz, hzy] at h2
              · simp only [hyz, hzy, if_false] at h2
                have e1 : ¬ x.toNat < z.toNat := by omega
                have e2 : ¬ z.toNat < x.toNat := by omega
                simp only [e1, e2, if_false]
                exact ih b c h1 h2

theorem sortStrings_mem (l : List Str) (c : Str) : c ∈ sortStrings l ↔ c ∈ l :=
  (List.perm_insertionSort StrLE l).mem_iff

theorem sortStrings_head_le (l : List Str) (c : Str) (hc : c ∈ l) :
    StrLE ((sortStrings l).headD []) c := by
  have hs : List.Sorted StrLE (sortStrings l) :=
    @List.sorted_insertionSort Str StrLE _ ⟨strLe_total⟩ ⟨strLe_trans⟩ l
  have hm : c ∈ sortStrings l := (sortStrings_mem l c).2 hc
  cases hl : sortStrings l with
  | nil => rw [hl] at hm; simp at hm
  | cons a t =>
    rw [hl] at hs hm
    simp only [List.headD_cons]
    rcases List.mem_cons.1 hm with h | h
    · subst h
      rcases strLe_total c c with h | h <;> exact h
    · exact List.rel_of_sorted_cons hs c h

theorem strLe_append_left (p a b : Str) : strLe (p ++ a) (p ++ b) = strLe a b := by
  induction p with
  | nil => rfl
  | cons c p ih => simp [strLe, ih]

/-! ## Facts about `findStaticLib` -/

theorem joinPath_dir_pre (d : Str) :
    ∃ pre : Str, ∀ x, PlainElem x → joinPath [d, x] = pre ++ x := by
  by_cases hd : d = []
  · refine ⟨[], fun x hx => ?_⟩
    rw [joinPath_pair d x hx.1, if_pos hd, clean_plain x hx]; rfl
  · by_cases hS : cleanElems (isAbs d) d = []
    · refine ⟨if isAbs d then ['/'] else [], fun x hx => ?_⟩
      rw [joinPath_pair d x hx.1, if_neg hd]
      unfold clean
      rw [isAbs_append d _ hd, cleanElems_snoc _ d x hx, hS]
      cases isAbs d <;> simp [renderPath, joinStr_singleton]
    · refine ⟨clean d ++ ['/'], fun x hx => ?_⟩
      rw [joinPath_pair d x hx.1, if_neg hd, clean_snoc d x hx hd hS]
      simp

theorem pickStaticLib_mem (cands : List Str) (h : cands ≠ []) : pickStaticLib cands ∈ cands := by
  unfold pickStaticLib
  rw [if_neg (by simpa using h)]
  cases hf : (sortStrings cands).find? (fun c => decide (base c = libredwgA)) with
  | some c => exact (sortStrings_mem cands c).1 (List.mem_of_find?_eq_some hf)
  | none =>
    simp only
    cases hl : sortStrings cands with
    | nil =>
      have : cands.length = 0 := by
        have := (List.perm_insertionSort StrLE cands).length_eq
        unfold sortStrings at hl
        rw [hl] at this; simpa using this.symm
      exact absurd (List.length_eq_zero.1 this) h
    | cons a t =>
      simp only [List.headD_cons]
      exact (sortStrings_mem cands a).1 (by rw [hl]; exact List.mem_cons_self _ _)

theorem pickStaticLib_exact (cands : List Str) (h : ∃ c ∈ cands, base c = libredwgA) :
    base (pickStaticLib cands) = libredwgA := by
  obtain ⟨c, hc, hb⟩ := h
  unfold pickStaticLib
  rw [if_neg (by intro h0; rw [List.length_eq_zero.1 h0] at hc; simp at hc)]
  cases hf : (sortStrings cands).find? (fun c => decide (base c = libredwgA)) with
  | some d => simpa using List.find?_some hf
  | none =>
    have := List.find?_eq_none.1 hf c ((sortStrings_mem cands c).2 hc)
    simp [hb] at this

theorem pickStaticLib_least (cands : List Str) (h : ∀ c ∈ cands, base c ≠ libredwgA) :
    ∀ c ∈ cands, StrLE (pickStaticLib cands) c := by
  intro c hc
  unfold pickStaticLib
  rw [if_neg (by intro h0; rw [List.length_eq_zero.1 h0] at hc; simp at hc)]
  cases hf : (sortStrings cands).find? (fun c => decide (base c = libredwgA)) with
  | some d =>
    have h1 := List.find?_some hf
    have h2 := (sortStrings_mem cands d).1 (List.mem_of_find?_eq_some hf)
    exact absurd (by simpa using h1) (h d h2)
  | none => exact sortStrings_head_le cands c hc

theorem toLower_libredwgA (uni : Char → Char) : toLower uni libredwgA = libredwgA := by
  have h : ∀ c ∈ libredwgA, toLowerRune uni c = c := by
    intro c hc
    have h2 : c.toNat < 128 ∧ ¬ (65 ≤ c.toNat ∧ c.toNat ≤ 90) := by
      revert c; decide
    unfold toLowerRune
    rw [if_pos h2.1, if_neg h2.2]
  unfold toLower
  exact (List.map_congr_left h).trans (List.map_id _)

theorem isCandidateName_libredwgA (uni : Char → Char) : isCandidateName uni libredwgA = true := by
  unfold isCandidateName
  rw [toLower_libredwgA]
  decide

theorem mem_dwgCandidates (uni : Char → Char) (libDir : Str) (entries : List DirEntry) (c : Str) :
    c ∈ dwgCandidates uni libDir entries ↔
      ∃ e ∈ entries, e.isDir = false ∧ isCandidateName uni e.name = true ∧
        c = joinPath [libDir, e.name] := by
  unfold dwgCandidates
  simp only [List.mem_map, List.mem_filter, Bool.and_eq_true, Bool.not_eq_true']
  constructor
  · rintro ⟨e, ⟨he, h1, h2⟩, rfl⟩; exact ⟨e, he, h1, h2, rfl⟩
  · rintro ⟨e, he, h1, h2, rfl⟩; exact ⟨e, ⟨he, h1, h2⟩, rfl⟩

/-- The second loop of `findStaticLib` never adds anything: `libredwg.a` already
passes the test of the first loop. -/
theorem candidates_eq_dwgCandidates (uni : Char → Char) (libDir : Str)
    (entries : List DirEntry) :
    candidates uni libDir entries = dwgCandidates uni libDir entries := by
  unfold candidates
  split_ifs with h
  · have h0 : dwgCandidates uni libDir entries = [] := List.length_eq_zero.1 h
    rw [h0]
    unfold exactCandidates
    rw [List.map_eq_nil_iff, List.filter_eq_nil_iff]
    intro e he hcond
    simp only [Bool.and_eq_true, Bool.not_eq_true', decide_eq_true_eq] at hcond
    have : joinPath [libDir, e.name] ∈ dwgCandidates uni libDir entries :=
      (mem_dwgCandidates uni libDir entries _).2
        ⟨e, he, hcond.1, by rw [hcond.2]; exact isCandidateName_libredwgA uni, rfl⟩
    rw [h0] at this; simp at this
  · rfl

theorem isCandidateName_ne_nil (uni : Char → Char) (n : Str)
    (h : isCandidateName uni n = true) : n ≠ [] := by
  intro h0
  subst h0
  revert h
  simp [isCandidateName, hasSuffixStr, hasPrefixStr, List.isPrefixOf]

/-- C1. When the listing of the library directory yields at least one
candidate, `findStaticLib` returns a candidate, which is the path of a regular
entry of the directory; its file name is `libredwg.a` when some candidate has
that file name, and otherwise it is below every candidate in the order of
`sort.Strings`. When the entry names are single path elements, as `os.ReadDir`
gives them, the result is the entry `libredwg.a` of the directory whenever a
regular entry of that name exists, and otherwise its file name is below the
file name of every candidate entry. On the candidates `libfoo.a`,
`libredwg-0.a`, `libredwg.a` the selection is `libredwg.a`. -/
theorem findStaticLib_tie_break (uni : Char → Char) (readDir : Str → Option (List DirEntry))
    (libDir : Str) (entries : List DirEntry)
    (hread : readDir libDir = some entries)
    (hcand : candidates uni libDir entries ≠ []) :
    ∃ r, findStaticLib uni readDir libDir = some r ∧
      r ∈ candidates uni libDir entries ∧
      (∃ e ∈ entries, e.isDir = false ∧ r = joinPath [libDir, e.name]) ∧
      ((∃ c ∈ candidates uni libDir entries, base c = libredwgA) → base r = libredwgA) ∧
      ((∀ c ∈ candidates uni libDir entries, base c ≠ libredwgA) →
        ∀ c ∈ candidates uni libDir entries, StrLE r c) ∧
      ((∀ e ∈ entries, PlainElem e.name) →
        ((∃ e ∈ entries, e.isDir = false ∧ e.name = libredwgA) →
          r = joinPath [libDir, libredwgA] ∧ base r = libredwgA) ∧
        ((¬ ∃ e ∈ entries, e.isDir = false ∧ e.name = libredwgA) →
          (∀ c ∈ candidates uni libDir entries, StrLE r c) ∧
          (∀ e ∈ entries, e.isDir = false → isCandidateName uni e.name = true →
            StrLE (base r) e.name))) ∧
      pickStaticLib ["libfoo.a".toList, "libredwg-0.a".toList, "libredwg.a".toList]
        = "libredwg.a".toList := by
  refine ⟨pickStaticLib (candidates uni libDir entries), ?_, ?_, ?_, ?_, ?_, ?_, ?_⟩
  · unfold findStaticLib; rw [hread]
  · exact pickStaticLib_mem _ hcand
  · have hm := pickStaticLib_mem _ hcand
    rw [candidates_eq_dwgCandidates] at hm ⊢
    obtain ⟨e, he, h1, _, h3⟩ := (mem_dwgCandidates uni libDir entries _).1 hm
    exact ⟨e, he, h1, h3⟩
  · exact pickStaticLib_exact _
  · exact pickStaticLib_least _
  · intro hnames
    refine ⟨?_, ?_⟩
    · rintro ⟨e, he, h1, h2⟩
      have hin : joinPath [libDir, e.name] ∈ candidates uni libDir entries := by
        rw [candidates_eq_dwgCandidates]
        exact (mem_dwgCandidates uni libDir entries _).2
          ⟨e, he, h1, by rw [h2]; exact isCandidateName_libredwgA uni, rfl⟩
      have hb : base (pickStaticLib (candidates uni libDir entries)) = libredwgA :=
        pickStaticLib_exact _ ⟨_, hin, by rw [base_joinPath libDir e.name (hnames e he), h2]⟩
      have hm := pickStaticLib_mem _ hcand
      rw [candidates_eq_dwgCandidates] at hm hb
      obtain ⟨e2, he2, _, _, h3⟩ := (mem_dwgCandidates uni libDir entries _).1 hm
      rw [candidates_eq_dwgCandidates]
      refine ⟨?_, hb⟩
      have hn : e2.name = libredwgA := by
        rw [← hb, h3, base_joinPath libDir e2.name (hnames e2 he2)]
      rw [h3, hn]
    · intro hno
      have hleast : ∀ c ∈ candidates uni libDir entries,
          StrLE (pickStaticLib (candidates uni libDir entries)) c := by
        apply pickStaticLib_least
        intro c hc hb
        rw [candidates_eq_dwgCandidates] at hc
        obtain ⟨e, he, h1, _, h3⟩ := (mem_dwgCandidates uni libDir entries _).1 hc
        apply hno
        refine ⟨e, he, h1, ?_⟩
        rw [← hb, h3, base_joinPath libDir e.name (hnames e he)]
      refine ⟨hleast, ?_⟩
      intro e he hd hc
      have hin : joinPath [libDir, e.name] ∈ candidates uni libDir entries := by
        rw [candidates_eq_dwgCandidates]
        exact (mem_dwgCandidates uni libDir entries _).2 ⟨e, he, hd, hc, rfl⟩
      have hle := hleast _ hin
      have hm := pickStaticLib_mem _ hcand
      rw [candidates_eq_dwgCandidates] at hm
      obtain ⟨e2, he2, _, _, h3⟩ := (mem_dwgCandidates uni libDir entries _).1 hm
      rw [candidates_eq_dwgCandidates] at hle ⊢
      rw [h3] at hle ⊢
      rw [base_joinPath libDir e2.name (hnames e2 he2)]
      obtain ⟨pre, hpre⟩ := joinPath_dir_pre libDir
      rw [hpre _ (hnames e2 he2), hpre _ (hnames e he)] at hle
      unfold StrLE at hle ⊢
      rw [strLe_append_left] at hle
      exact hle
  · decide

/-- C1 at the listing `libfoo.a`, `libredwg-0.a`, `libredwg.a` of
`/abs/install/x86_64/lib`. -/
theorem findStaticLib_tie_break_witness :
    ∃ r, findStaticLib id
        (fun _ => some [⟨"libfoo.a".toList, false⟩, ⟨"libredwg-0.a".toList, false⟩,
          ⟨"libredwg.a".toList, false⟩]) "/abs/install/x86_64/lib".toList = some r ∧
      r = "/abs/install/x86_64/lib/libredwg.a".toList := by
  obtain ⟨r, h1, _, _, _, _, h4, _⟩ := findStaticLib_tie_break id
    (fun _ => some [⟨"libfoo.a".toList, false⟩, ⟨"libredwg-0.a".toList, false⟩,
      ⟨"libredwg.a".toList, false⟩]) "/abs/install/x86_64/lib".toList
    [⟨"libfoo.a".toList, false⟩, ⟨"libredwg-0.a".toList, false⟩, ⟨"libredwg.a".toList, false⟩]
    rfl (by decide)
  refine ⟨r, h1, ?_⟩
  rw [((h4 (by decide)).1 ⟨⟨"libredwg.a".toList, false⟩, by decide, rfl, rfl⟩).1]
  decide

/-- C2 fails as stated: a directory holding only the regular file `mydwg.a`,
whose name ends in `.a` and contains `dwg`, gives the empty result, on which
`syncToFinal` exits with "No static lib found". -/
theorem findStaticLib_needs_lib_start :
    hasSuffixStr "mydwg.a".toList ".a".toList = true ∧
    containsStr (toLower id "mydwg.a".toList) "dwg".toList = true ∧
    findStaticLib id (fun _ => some [⟨"mydwg.a".toList, false⟩]) "/abs/install/x86_64/lib".toList
      = some [] := by
  decide

/-- C2, amended. When the listing holds at least one regular entry whose name
starts with `lib`, ends in `.a` and contains `dwg` in any letter case,
`findStaticLib` returns a non-empty path, the path of such an entry. -/
theorem findStaticLib_finds_archive (uni : Char → Char)
    (readDir : Str → Option (List DirEntry)) (libDir : Str) (entries : List DirEntry)
    (hread : readDir libDir = some entries)
    (h : ∃ e ∈ entries, e.isDir = false ∧ hasSuffixStr e.name ".a".toList = true ∧
      hasPrefixStr e.name "lib".toList = true ∧
      containsStr (toLower uni e.name) "dwg".toList = true) :
    ∃ r, findStaticLib uni readDir libDir = some r ∧ r ≠ [] ∧
      ∃ e ∈ entries, e.isDir = false ∧ hasSuffixStr e.name ".a".toList = true ∧
        hasPrefixStr e.name "lib".toList = true ∧
        containsStr (toLower uni e.name) "dwg".toList = true ∧
        r = joinPath [libDir, e.name] := by
  obtain ⟨e0, he0, hd0, ha0, hl0, hc0⟩ := h
  have hcand0 : isCandidateName uni e0.name = true := by
    unfold isCandidateName; rw [ha0, hl0, hc0]; rfl
  have hne : candidates uni libDir entries ≠ [] := by
    rw [candidates_eq_dwgCandidates]
    exact List.ne_nil_of_mem
      ((mem_dwgCandidates uni libDir entries _).2 ⟨e0, he0, hd0, hcand0, rfl⟩)
  have hm := pickStaticLib_mem _ hne
  rw [candidates_eq_dwgCandidates] at hm
  obtain ⟨e, he, h1, h2, h3⟩ := (mem_dwgCandidates uni libDir entries _).1 hm
  refine ⟨pickStaticLib (candidates uni libDir entries), ?_, ?_, e, he, h1, ?_, ?_, ?_, ?_⟩
  · unfold findStaticLib; rw [hread]
  · rw [candidates_eq_dwgCandidates, h3]
    exact joinPath_pair_ne_nil libDir e.name (isCandidateName_ne_nil uni e.name h2)
  · unfold isCandidateName at h2
    simp only [Bool.and_eq_true] at h2
    exact h2.1.1
  · unfold isCandidateName at h2
    simp only [Bool.and_eq_true] at h2
    exact h2.1.2
  · unfold isCandidateName at h2
    simp only [Bool.and_eq_true] at h2
    exact h2.2
  · rw [candidates_eq_dwgCandidates]; exact h3

/-- C2, amended, at a directory holding only `libdwg-extra.a`. -/
theorem findStaticLib_finds_archive_witness :
    ∃ r, findStaticLib id (fun _ => some [⟨"libdwg-extra.a".toList, false⟩])
        "/abs/install/x86_64/lib".toList = some r ∧
      r = "/abs/install/x86_64/lib/libdwg-extra.a".toList := by
  obtain ⟨r, h1, _, e, he, _, _, _, _, h5⟩ := findStaticLib_finds_archive id
    (fun _ => some [⟨"libdwg-extra.a".toList, false⟩]) "/abs/install/x86_64/lib".toList
    [⟨"libdwg-extra.a".toList, false⟩] rfl
    ⟨⟨"libdwg-extra.a".toList, false⟩, by decide, rfl, by decide, by decide, by decide⟩
  refine ⟨r, h1, ?_⟩
  rw [h5, List.mem_singleton.1 he]
  decide

/-! ## Facts about `strings.Fields` and `strings.TrimSpace` -/

theorem fieldsAux_token (tok rest cur : Str) (h : ∀ c ∈ tok, isSpace c = false) :
    fieldsAux (tok ++ rest) cur = fieldsAux rest (tok.reverse ++ cur) := by
  induction tok generalizing cur with
  | nil => rfl
  | cons c tok ih =>
    have hc : isSpace c = false := h c (List.mem_cons_self _ _)
    simp only [List.cons_append, fieldsAux, hc, Bool.false_eq_true, if_false, List.append_eq]
    rw [ih _ (fun d hd => h d (List.mem_cons_of_mem _ hd))]
    simp

theorem fields_token_space (tok rest : Str) (sp : Char) (hsp : isSpace sp = true)
    (h : GoodToken tok) : fields (tok ++ sp :: rest) = tok :: fields rest := by
  unfold fields
  rw [fieldsAux_token tok _ [] h.2]
  have hne : tok.reverse ++ [] ≠ [] := by simpa using h.1
  simp only [fieldsAux, hsp, if_true, if_neg hne]
  simp

theorem fields_token (tok : Str) (h : GoodToken tok) : fields tok = [tok] := by
  unfold fields
  have := fieldsAux_token tok [] [] h.2
  rw [List.append_nil] at this
  rw [this]
  have hne : tok.reverse ++ [] ≠ [] := by simpa using h.1
  simp only [fieldsAux, if_neg hne]
  simp

theorem fieldsAux_good (s cur : Str) (hcur : ∀ c ∈ cur, isSpace c = false) :
    ∀ t ∈ fieldsAux s cur, GoodToken t := by
  induction s generalizing cur with
  | nil =>
    intro t ht
    simp only [fieldsAux] at ht
    split_ifs at ht with h0
    · simp at ht
    · rw [List.mem_singleton] at ht
      subst ht
      exact ⟨by simpa using h0, fun c hc => hcur c (List.mem_reverse.1 hc)⟩
  | cons c s ih =>
    intro t ht
    simp only [fieldsAux] at ht
    by_cases hc : isSpace c = true
    · rw [if_pos hc] at ht
      split_ifs at ht with h0
      · exact ih [] (by simp) t ht
      · rcases List.mem_cons.1 ht with h | h
        · subst h
          exact ⟨by simpa using h0, fun c hc => hcur c (List.mem_reverse.1 hc)⟩
        · exact ih [] (by simp) t h
    · rw [if_neg hc] at ht
      refine ih (c :: cur) ?_ t ht
      intro d hd
      rcases List.mem_cons.1 hd with h | h
      · subst h; simpa using hc
      · exact hcur d h

theorem fields_good (s : Str) : ∀ t ∈ fields s, GoodToken t :=
  fieldsAux_good s [] (by simp)

theorem fields_joinStr (toks : List Str) (h : ∀ t ∈ toks, GoodToken t) :
    fields (joinStr toks [' ']) = toks := by
  induction toks with
  | nil => simp [joinStr_nil, fields, fieldsAux]
  | cons a t ih =>
    cases t with
    | nil => rw [joinStr_singleton]; exact fields_token a (h a (List.mem_cons_self _ _))
    | cons b t =>
      rw [joinStr_cons_cons, List.append_assoc, List.singleton_append,
        fields_token_space a _ ' ' (by decide) (h a (List.mem_cons_self _ _)),
        ih (fun x hx => h x (List.mem_cons_of_mem _ hx))]

theorem fieldsAux_spaces (sp cur : Str) (h : ∀ c ∈ sp, isSpace c = true) :
    fieldsAux sp cur = fieldsAux [] cur := by
  induction sp generalizing cur with
  | nil => rfl
  | cons c sp ih =>
    have hc := h c (List.mem_cons_self _ _)
    have hnil := ih [] (fun d hd => h d (List.mem_cons_of_mem _ hd))
    simp only [fieldsAux, hc, if_true] at hnil ⊢
    rw [hnil]

theorem fieldsAux_append_spaces (l sp cur : Str) (h : ∀ c ∈ sp, isSpace c = true) :
    fieldsAux (l ++ sp) cur = fieldsAux l cur := by
  induction l generalizing cur with
  | nil => exact fieldsAux_spaces sp cur h
  | cons c l ih =>
    simp only [List.cons_append, fieldsAux, List.append_eq]
    rw [ih [], ih (c :: cur)]

theorem fields_dropWhile (s : Str) : fields (s.dropWhile isSpace) = fields s := by
  induction s with
  | nil => rfl
  | cons c s ih =>
    by_cases hc : isSpace c = true
    · rw [List.dropWhile_cons_of_pos hc, ih]
      simp [fields, fieldsAux, hc]
    · rw [List.dropWhile_cons_of_neg hc]

theorem fields_trimSpace (s : Str) : fields (trimSpace s) = fields s := by
  unfold trimSpace
  rw [← fields_dropWhile s]
  generalize s.dropWhile isSpace = u
  have hsplit : u = (u.reverse.dropWhile isSpace).reverse ++
      (u.reverse.takeWhile isSpace).reverse := by
    rw [← List.reverse_append, List.takeWhile_append_dropWhile, List.reverse_reverse]
  have hsp : ∀ c ∈ (u.reverse.takeWhile isSpace).reverse, isSpace c = true := by
    intro c hc
    exact List.mem_takeWhile_imp (List.mem_reverse.1 hc)
  conv_rhs => rw [hsplit]
  unfold fields
  rw [fieldsAux_append_spaces _ _ _ hsp]

/-! ## Facts about `dedupBySpace` -/

theorem firstOccurrences_snoc (l : List Str) (t : Str) :
    firstOccurrences (l ++ [t]) = firstOccurrences l ++ (if t ∈ l then [] else [t]) := by
  unfold firstOccurrences
  rw [List.length_append, List.length_singleton, List.range_succ, List.filterMap_append]
  congr 1
  · apply List.filterMap_congr
    intro i hi
    have hi2 : i < l.length := List.mem_range.1 hi
    rw [List.getD_append _ _ _ _ hi2, List.take_append_of_le_length (le_of_lt hi2)]
  · have h1 : (l ++ [t]).getD l.length [] = t := by
      rw [List.getD_append_right _ _ _ _ (le_refl _)]; simp
    have h2 : (l ++ [t]).take l.length = l := by simp
    simp only [List.filterMap_cons, List.filterMap_nil, h1, h2]
    split_ifs <;> rfl

theorem firstOccurrences_nil : firstOccurrences [] = [] := rfl

theorem mem_firstOccurrences (l : List Str) (t : Str) : t ∈ firstOccurrences l ↔ t ∈ l := by
  induction l using List.reverseRecOn with
  | nil => simp [firstOccurrences_nil]
  | append_singleton l a ih =>
    rw [firstOccurrences_snoc, List.mem_append, List.mem_append, ih]
    by_cases ha : a ∈ l
    · simp only [if_pos ha, List.not_mem_nil, or_false, List.mem_singleton]
      constructor
      · exact Or.inl
      · rintro (h | h)
        · exact h
        · rw [h]; exact ha
    · simp only [if_neg ha]

theorem nodup_firstOccurrences (l : List Str) : (firstOccurrences l).Nodup := by
  induction l using List.reverseRecOn with
  | nil => simp [firstOccurrences_nil]
  | append_singleton l a ih =>
    rw [firstOccurrences_snoc]
    by_cases ha : a ∈ l
    · simpa [if_pos ha] using ih
    · rw [if_neg ha, List.nodup_append]
      refine ⟨ih, List.nodup_singleton a, ?_⟩
      intro x hx hx2
      rw [List.mem_singleton] at hx2
      subst hx2
      exact ha ((mem_firstOccurrences l x).1 hx)

theorem sublist_firstOccurrences (l : List Str) : (firstOccurrences l).Sublist l := by
  induction l using List.reverseRecOn with
  | nil => simp [firstOccurrences_nil]
  | append_singleton l a ih =>
    rw [firstOccurrences_snoc]
    apply List.Sublist.append ih
    split_ifs
    · exact List.nil_sublist _
    · exact List.Sublist.refl _

theorem firstOccurrences_append (A B : List Str) :
    firstOccurrences (A ++ B) =
      firstOccurrences A ++ (firstOccurrences B).filter (fun t => decide (t ∉ A)) := by
  induction B using List.reverseRecOn with
  | nil => simp [firstOccurrences_nil]
  | append_singleton B t ih =>
    rw [← List.append_assoc, firstOccurrences_snoc, ih, firstOccurrences_snoc,
      List.filter_append, List.append_assoc]
    congr 2
    by_cases hB : t ∈ B
    · simp [hB]
    · by_cases hA : t ∈ A
      · simp [hB, hA]
      · simp [hB, hA]

theorem dedupLoop_spec (l : List Str) :
    (l.foldl dedupStep ([], [])).2 = firstOccurrences l ∧
      ∀ t, t ∈ (l.foldl dedupStep ([], [])).1 ↔ t ∈ l := by
  induction l using List.reverseRecOn with
  | nil => simp [firstOccurrences_nil]
  | append_singleton l a ih =>
    obtain ⟨ih1, ih2⟩ := ih
    rw [List.foldl_append, List.foldl_cons, List.foldl_nil, firstOccurrences_snoc]
    generalize List.foldl dedupStep ([], []) l = st at ih1 ih2 ⊢
    unfold dedupStep
    by_cases ha : a ∈ l
    · rw [if_pos ((ih2 a).2 ha), if_pos ha, List.append_nil]
      refine ⟨ih1, fun t => ?_⟩
      rw [ih2 t, List.mem_append, List.mem_singleton]
      constructor
      · exact Or.inl
      · rintro (h | h)
        · exact h
        · rw [h]; exact ha
    · rw [if_neg (fun h => ha ((ih2 a).1 h)), if_neg ha]
      refine ⟨by simp only [ih1], fun t => ?_⟩
      simp only [List.mem_cons, List.mem_append, List.not_mem_nil, or_false, ih2 t]
      exact or_comm

theorem dedupBySpace_eq (s : Str) :
    dedupBySpace s = joinStr (firstOccurrences (fields s)) [' '] := by
  unfold dedupBySpace
  rw [(dedupLoop_spec (fields s)).1]

theorem fields_dedupBySpace (s : Str) :
    fields (dedupBySpace s) = firstOccurrences (fields s) := by
  rw [dedupBySpace_eq]
  apply fields_joinStr
  intro t ht
  exact fields_good s t ((mem_firstOccurrences _ t).1 ht)

/-- C3. For every string `s`, `dedupBySpace s` is the tokens of `s` that do not
occur at an earlier position, in their order, joined by single spaces; read
back with `strings.Fields` it gives exactly those tokens, which are pairwise
different, are the same tokens as those of `s`, and form a subsequence of the
tokens of `s`. For `-lm -lz -lm` the result is `-lm -lz`. -/
theorem dedupBySpace_first_occurrences (s : Str) :
    dedupBySpace s = joinStr (firstOccurrences (fields s)) [' '] ∧
    fields (dedupBySpace s) = firstOccurrences (fields s) ∧
    (fields (dedupBySpace s)).Nodup ∧
    (∀ t, t ∈ fields (dedupBySpace s) ↔ t ∈ fields s) ∧
    (fields (dedupBySpace s)).Sublist (fields s) ∧
    dedupBySpace "-lm -lz -lm".toList = "-lm -lz".toList := by
  refine ⟨dedupBySpace_eq s, fields_dedupBySpace s, ?_, ?_, ?_, by decide⟩
  · rw [fields_dedupBySpace]; exact nodup_firstOccurrences _
  · intro t; rw [fields_dedupBySpace]; exact mem_firstOccurrences _ t
  · rw [fields_dedupBySpace]; exact sublist_firstOccurrences _

/-! ## Facts about `newBuildCtx` -/

theorem joinStr_cons_eq_append (a : Str) (rest : List Str) (sep : Str) :
    ∃ tail, joinStr (a :: rest) sep = a ++ tail := by
  cases rest with
  | nil => exact ⟨[], by rw [joinStr_singleton, List.append_nil]⟩
  | cons b t => exact ⟨sep ++ joinStr (b :: t) sep, by rw [joinStr_cons_cons, List.append_assoc]⟩

theorem joinPath_cons (a : Str) (rest : List Str) (ha : a ≠ []) :
    joinPath (a :: rest) = clean (joinStr (a :: rest) ['/']) := by
  unfold joinPath
  rw [List.dropWhile_cons_of_neg (by simpa using ha)]

theorem isAbs_joinPath_cons (a : Str) (rest : List Str) (ha : a ≠ []) :
    isAbs (joinPath (a :: rest)) = isAbs a := by
  rw [joinPath_cons a rest ha, isAbs_clean]
  obtain ⟨tail, h⟩ := joinStr_cons_eq_append a rest ['/']
  rw [h, isAbs_append a tail ha]

theorem joinPath_cons_ne_nil (a : Str) (rest : List Str) (ha : a ≠ []) :
    joinPath (a :: rest) ≠ [] := by
  rw [joinPath_cons a rest ha]; exact clean_ne_nil _

theorem isAbs_mustAbs (wd p : Str) (hwd : isAbs wd = true) :
    ∃ q, mustAbs (some wd) p = some q ∧ isAbs q = true := by
  unfold mustAbs
  by_cases hp : isAbs p = true
  · rw [if_pos hp]; exact ⟨_, rfl, by rw [isAbs_clean, hp]⟩
  · rw [if_neg hp]
    have hne : wd ≠ [] := by
      intro h; rw [h, isAbs_nil] at hwd; exact Bool.false_ne_true hwd
    exact ⟨_, rfl, by rw [isAbs_joinPath_cons wd _ hne, hwd]⟩

/-- C8 fails as stated: with every configuration variable at its default, on
linux/amd64 in the working directory `/home/dev/dwg-go`, none of the eight
directory paths of the context is absolute; the build root is
`dwg_service/build`. -/
theorem newBuildCtx_defaults_relative :
    (newBuildCtx (configFromEnv id (fun _ => [])) "linux".toList "amd64".toList
        (some "/home/dev/dwg-go".toList)).map
      (fun c => (c.buildRoot, [isAbs c.buildRoot, isAbs c.srcRoot, isAbs c.srcDir,
        isAbs c.buildDir, isAbs c.installDir, isAbs c.finalRoot, isAbs c.finalInclude,
        isAbs c.finalLibDir]))
      = some ("dwg_service/build".toList,
          [false, false, false, false, false, false, false, false]) := by
  decide

theorem plainElem_build (t : Str) (ht : '/' ∉ t) : PlainElem ("_build_".toList ++ t) := by
  refine ⟨by simp, ?_, ?_, ?_⟩
  · intro h
    rcases List.mem_append.1 h with h | h
    · revert h; decide
    · exact ht h
  · intro h
    have := congrArg List.length h
    simp at this
  · intro h
    have := congrArg List.length h
    simp at this

theorem joinPath_triple_lib (r t : Str) (hr : r ≠ []) (ht : PlainElem t) :
    joinPath [r, t, "lib".toList] = clean (r ++ '/' :: t) ++ "/lib".toList := by
  rw [joinPath_cons r _ hr, joinStr_cons_cons, joinStr_cons_cons, joinStr_singleton]
  have h : r ++ ['/'] ++ (t ++ ['/'] ++ "lib".toList) = (r ++ '/' :: t) ++ '/' :: "lib".toList := by
    simp
  rw [h, clean_snoc _ _ (by decide) (by simp)]
  · rfl
  · rw [cleanElems_snoc _ r t ht]; simp

/-- C9 fails as stated: on linux/amd64 with default roots, the unset triple and
the triple `linux-amd64` give the same three per-target directories, and so do
the triples `linux-amd64` and `linux-amd64/.`. -/
theorem newBuildCtx_targets_collide :
    ((([] : Str) ≠ "linux-amd64".toList) ∧
      (newBuildCtx { configFromEnv id (fun _ => []) with TargetTriple := [] }
          "linux".toList "amd64".toList (some "/home/dev/dwg-go".toList)).map
        (fun c => (c.buildDir, c.installDir, c.finalLibDir)) =
      (newBuildCtx { configFromEnv id (fun _ => []) with TargetTriple := "linux-amd64".toList }
          "linux".toList "amd64".toList (some "/home/dev/dwg-go".toList)).map
        (fun c => (c.buildDir, c.installDir, c.finalLibDir))) ∧
    (("linux-amd64".toList ≠ "linux-amd64/.".toList) ∧
      (newBuildCtx { configFromEnv id (fun _ => []) with TargetTriple := "linux-amd64".toList }
          "linux".toList "amd64".toList (some "/home/dev/dwg-go".toList)).map
        (fun c => (c.buildDir, c.installDir, c.finalLibDir)) =
      (newBuildCtx { configFromEnv id (fun _ => []) with TargetTriple := "linux-amd64/.".toList }
          "linux".toList "amd64".toList (some "/home/dev/dwg-go".toList)).map
        (fun c => (c.buildDir, c.installDir, c.finalLibDir))) := by
  decide

/-- C9, amended. For one configuration of roots and two triple settings whose
resolved targets (the setting, or os-arch when it is empty) differ and are
single path elements (not empty, no separator, neither `.` nor `..`), the
contexts of `newBuildCtx` have different per-target build directories,
different per-target install directories and different final per-target lib
directories. -/
theorem newBuildCtx_isolates_targets (cfg : Config) (goos goarch wd t1 t2 : Str)
    (c1 c2 : buildCtx)
    (h1 : newBuildCtx { cfg with TargetTriple := t1 } goos goarch (some wd) = some c1)
    (h2 : newBuildCtx { cfg with TargetTriple := t2 } goos goarch (some wd) = some c2)
    (hne : c1.target ≠ c2.target)
    (hp1 : PlainElem c1.target) (hp2 : PlainElem c2.target) :
    c1.buildDir ≠ c2.buildDir ∧ c1.installDir ≠ c2.installDir ∧
      c1.finalLibDir ≠ c2.finalLibDir := by
  simp only [newBuildCtx, Option.some.injEq] at h1 h2
  subst h1; subst h2
  simp only at hne hp1 hp2 ⊢
  generalize (if t1 = [] then goos ++ "-".toList ++ goarch else t1) = u1 at hne hp1 hp2 ⊢
  generalize (if t2 = [] then goos ++ "-".toList ++ goarch else t2) = u2 at hne hp1 hp2 ⊢
  refine ⟨?_, ?_, ?_⟩
  · intro h
    have := congrArg base h
    rw [base_joinPath _ _ (plainElem_build u1 hp1.2.1),
      base_joinPath _ _ (plainElem_build u2 hp2.2.1)] at this
    exact hne (List.append_cancel_left this)
  · intro h
    have := congrArg base h
    rw [base_joinPath _ _ hp1, base_joinPath _ _ hp2] at this
    exact hne this
  · intro h
    rw [joinPath_triple_lib _ _ (clean_ne_nil _) hp1,
      joinPath_triple_lib _ _ (clean_ne_nil _) hp2] at h
    have := congrArg base (List.append_cancel_right h)
    rw [base_clean_snoc _ _ hp1, base_clean_snoc _ _ hp2] at this
    exact hne this

/-- C9, amended, at the triples `linux-amd64` and `darwin-arm64` with default roots. -/
theorem newBuildCtx_isolates_targets_witness :
    ∃ c1 c2 : buildCtx,
      newBuildCtx { configFromEnv id (fun _ => []) with TargetTriple := "linux-amd64".toList }
        "linux".toList "amd64".toList (some "/home/dev/dwg-go".toList) = some c1 ∧
      newBuildCtx { configFromEnv id (fun _ => []) with TargetTriple := "darwin-arm64".toList }
        "linux".toList "amd64".toList (some "/home/dev/dwg-go".toList) = some c2 ∧
      c1.buildDir ≠ c2.buildDir ∧ c1.installDir ≠ c2.installDir ∧
      c1.finalLibDir ≠ c2.finalLibDir :=
  ⟨_, _, rfl, rfl,
    newBuildCtx_isolates_targets (configFromEnv id (fun _ => [])) "linux".toList "amd64".toList
      "/home/dev/dwg-go".toList "linux-amd64".toList "darwin-arm64".toList _ _ rfl rfl
      (by decide) (by decide) (by decide)⟩

/-! ## Facts about `strings.Contains` and `strings.ReplaceAll` -/

theorem containsStr_iff (s sub : Str) : containsStr s sub = true ↔ sub <:+: s := by
  induction s with
  | nil =>
    simp only [containsStr, List.isPrefixOf_iff_prefix, List.infix_nil, List.prefix_nil]
  | cons c cs ih =>
    simp only [containsStr, Bool.or_eq_true, List.isPrefixOf_iff_prefix, ih,
      List.infix_cons_iff]

theorem containsStr_false_iff (s sub : Str) : containsStr s sub = false ↔ ¬ sub <:+: s := by
  rw [← containsStr_iff]; simp

theorem replaceAux_skip (old new : Str) (k : Nat) (s : Str) :
    replaceAux old new k s = replaceAux old new 0 (s.drop k) := by
  induction k generalizing s with
  | zero => rfl
  | succ k ih =>
    cases s with
    | nil => simp [replaceAux]
    | cons c cs => simp only [replaceAux, List.drop_succ_cons]; exact ih cs

theorem replaceAux_nil (old new : Str) : replaceAux old new 0 [] = [] := by
  simp [replaceAux]

theorem replaceAux_match (old new s : Str) (ho : old ≠ []) (h : old <+: s) :
    replaceAux old new 0 s = new ++ replaceAux old new 0 (s.drop old.length) := by
  cases s with
  | nil => exact absurd (List.prefix_nil.1 h) ho
  | cons c cs =>
    have hp : old.isPrefixOf (c :: cs) = true := List.isPrefixOf_iff_prefix.2 h
    simp only [replaceAux, hp, if_true]
    rw [replaceAux_skip]
    cases old with
    | nil => exact absurd rfl ho
    | cons a t => simp

theorem replaceAux_step (old new : Str) (c : Char) (cs : Str) (h : ¬ old <+: c :: cs) :
    replaceAux old new 0 (c :: cs) = c :: replaceAux old new 0 cs := by
  have hp : ¬ old.isPrefixOf (c :: cs) = true := fun hp => h (List.isPrefixOf_iff_prefix.1 hp)
  simp only [replaceAux, hp, if_false]
  simp

theorem clashFree_head (old : Str) (r : Char) (rt : Str) (h : clashFree old (r :: rt) = true) :
    r ∉ old := by
  unfold clashFree at h
  simp only [Bool.and_eq_true] at h
  have h1 := h.1
  simp only [List.take_succ_cons, List.take_zero, List.all_cons, List.all_nil, Bool.and_true,
    Bool.not_eq_true', List.elem_eq_mem, decide_eq_false_iff_not] at h1
  exact h1

theorem clashFree_suffix (old : Str) (r : Char) (rt v : Str)
    (h : clashFree old (r :: rt) = true) (hv : v <:+ rt) (hne : v ≠ []) :
    ¬ v <+: old ∧ ¬ old <+: v := by
  unfold clashFree at h
  simp only [Bool.and_eq_true] at h
  have h2 := h.2
  simp only [List.drop_succ_cons, List.drop_zero, List.all_eq_true, List.mem_tails] at h2
  have := h2 v hv
  simp only [Bool.or_eq_true, List.isEmpty_iff, hne, false_or, Bool.and_eq_true,
    Bool.not_eq_true', ← Bool.not_eq_true, List.isPrefixOf_iff_prefix] at this
  exact this
theorem pre_of_pre_replaceAux (old new : Str) (r : Char) (rt : Str) (hnew : new = r :: rt)
    (ho : old ≠ []) (s : Str) :
    ∀ Q : Str, r ∉ Q → Q <+: replaceAux old new 0 s → Q <+: s := by
  induction s with
  | nil =>
    intro Q _ h
    rw [replaceAux_nil] at h
    exact h
  | cons c cs ih =>
    intro Q hr h
    cases Q with
    | nil => exact List.nil_prefix
    | cons q Q =>
      by_cases hm : old <+: c :: cs
      · rw [replaceAux_match old new _ ho hm, hnew, List.cons_append, List.cons_prefix_cons] at h
        exact absurd (by rw [h.1]; exact List.mem_cons_self _ _) hr
      · rw [replaceAux_step old new c cs hm, List.cons_prefix_cons] at h
        rw [List.cons_prefix_cons]
        exact ⟨h.1, ih Q (fun hq => hr (List.mem_cons_of_mem _ hq)) h.2⟩

theorem infix_append_cases (P R Y : Str) (h : P <:+: R ++ Y) :
    P <:+: Y ∨ ∃ k, k < R.length ∧ P <+: R.drop k ++ Y := by
  induction R with
  | nil => left; simpa using h
  | cons r R ih =>
    rw [List.cons_append, List.infix_cons_iff] at h
    rcases h with h | h
    · right; exact ⟨0, by simp, by simpa using h⟩
    · rcases ih h with h2 | ⟨k, hk, h2⟩
      · left; exact h2
      · right; exact ⟨k + 1, by simpa using hk, by simpa using h2⟩

theorem no_infix_new_append (P : Str) (r : Char) (rt Y : Str) (hP : P ≠ [])
    (hcf : clashFree P (r :: rt) = true) (hY : ¬ P <:+: Y) : ¬ P <:+: (r :: rt) ++ Y := by
  intro h
  rcases infix_append_cases P (r :: rt) Y h with h | ⟨k, hk, h⟩
  · exact hY h
  · cases k with
    | zero =>
      cases P with
      | nil => exact hP rfl
      | cons p P =>
        rw [List.drop_zero, List.cons_append, List.cons_prefix_cons] at h
        exact clashFree_head _ r rt hcf (by rw [h.1]; exact List.mem_cons_self _ _)
    | succ k =>
      rw [List.drop_succ_cons] at h
      have hk2 : k < rt.length := by simpa using hk
      have hne : rt.drop k ≠ [] := by
        intro h0
        have := congrArg List.length h0
        simp at this
        omega
      obtain ⟨h1, h2⟩ := clashFree_suffix P r rt (rt.drop k) hcf (List.drop_suffix k rt) hne
      rcases List.prefix_or_prefix_of_prefix h (List.prefix_append (rt.drop k) Y) with h3 | h3
      · exact h2 h3
      · exact h1 h3

theorem no_infix_replaceAux (P o : Str) (r : Char) (rt : Str) (hP : P ≠ []) (ho : o ≠ [])
    (hcf : clashFree P (r :: rt) = true) :
    ∀ (n : Nat) (s : Str), s.length ≤ n → (o = P ∨ ¬ P <:+: s) →
      ¬ P <:+: replaceAux o (r :: rt) 0 s := by
  intro n
  induction n with
  | zero =>
    intro s hs _ h
    have hs0 : s = [] := List.length_eq_zero.1 (Nat.le_zero.1 hs)
    rw [hs0, replaceAux_nil, List.infix_nil] at h
    exact hP h
  | succ n ih =>
    intro s hs hH h
    cases s with
    | nil =>
      rw [replaceAux_nil, List.infix_nil] at h
      exact hP h
    | cons c cs =>
      by_cases hm : o <+: c :: cs
      · rw [replaceAux_match o _ _ ho hm] at h
        refine no_infix_new_append P r rt _ hP hcf ?_ h
        apply ih
        · have : 0 < o.length := List.length_pos.2 ho
          simp only [List.length_drop, List.length_cons] at hs ⊢
          omega
        · rcases hH with hH | hH
          · exact Or.inl hH
          · exact Or.inr (fun h2 => hH (h2.trans (List.drop_suffix _ _).isInfix))
      · rw [replaceAux_step o _ c cs hm, List.infix_cons_iff] at h
        rcases h with h | h
        · rw [← replaceAux_step o _ c cs hm] at h
          have hpre := pre_of_pre_replaceAux o (r :: rt) r rt rfl ho (c :: cs) P
            (clashFree_head P r rt hcf) h
          rcases hH with hH | hH
          · exact hm (hH ▸ hpre)
          · exact hH hpre.isInfix
        · refine ih cs (by simpa using hs) ?_ h
          rcases hH with hH | hH
          · exact Or.inl hH
          · exact Or.inr (fun h2 => hH (List.infix_cons h2))

theorem finalRootCgo_eq :
    finalRootCgo = '$' :: "\x7bSRCDIR\x7d/libs/libredwg".toList := by
  decide

theorem no_infix_replaceAll (P o s : Str) (hP : P ≠ []) (ho : o ≠ [])
    (hcf : clashFree P finalRootCgo = true) (hH : o = P ∨ ¬ P <:+: s) :
    ¬ P <:+: replaceAll s o finalRootCgo := by
  unfold replaceAll
  rw [if_neg ho]
  rw [finalRootCgo_eq] at hcf ⊢
  exact no_infix_replaceAux P o _ _ hP ho hcf s.length s (le_refl _) hH

theorem trimSpace_inside (s : Str) : trimSpace s <:+: s := by
  unfold trimSpace
  have h1 : (s.dropWhile isSpace).reverse.dropWhile isSpace <:+ (s.dropWhile isSpace).reverse :=
    List.dropWhile_suffix _
  have h2 : ((s.dropWhile isSpace).reverse.dropWhile isSpace).reverse <+: s.dropWhile isSpace := by
    rw [← List.reverse_suffix]; simpa using h1
  exact h2.isInfix.trans (List.dropWhile_suffix _).isInfix
/-! ## `filepath.Clean` is idempotent -/

theorem splitSlash_joinStr (S : List Str) (hne : S ≠ []) (hS : ∀ e ∈ S, '/' ∉ e) :
    splitSlash (joinStr S ['/']) = S := by
  induction S with
  | nil => exact absurd rfl hne
  | cons a t ih =>
    cases t with
    | nil => rw [joinStr_singleton]; exact splitSlash_of_no_slash a (hS a (List.mem_cons_self _ _))
    | cons b t =>
      rw [joinStr_cons_cons, List.append_assoc, List.singleton_append, splitSlash_append_slash,
        splitSlash_of_no_slash a (hS a (List.mem_cons_self _ _)),
        ih (by simp) (fun e he => hS e (List.mem_cons_of_mem _ he))]
      rfl

theorem cleanStep_stackOK (r : Bool) (st : List Str) (e : Str) (hst : StackOK r st)
    (he : '/' ∉ e) : StackOK r (cleanStep r st e) := by
  obtain ⟨k, plains, hst, hpl, hk⟩ := hst
  unfold cleanStep
  by_cases h1 : e = [] ∨ e = ['.']
  · rw [if_pos h1]; exact ⟨k, plains, hst, hpl, hk⟩
  · rw [if_neg h1]
    by_cases h2 : e = ['.', '.']
    · rw [if_pos h2]
      subst h2
      cases plains with
      | nil =>
        cases k with
        | zero =>
          subst hst
          cases r
          · exact ⟨1, [], rfl, by simp, by simp⟩
          · exact ⟨0, [], rfl, by simp, by simp⟩
        | succ k =>
          have hr : r = false := by
            cases r
            · rfl
            · exact absurd (hk rfl) (by simp)
          subst hst
          simp only [List.nil_append, List.replicate_succ, if_true]
          exact ⟨k + 2, [], by simp [List.replicate_succ], by simp, by simp [hr]⟩
      | cons p plains =>
        subst hst
        have hp : p ≠ ['.', '.'] := (hpl p (List.mem_cons_self _ _)).2.2.2
        simp only [List.cons_append, if_neg hp]
        exact ⟨k, plains, rfl, fun x hx => hpl x (List.mem_cons_of_mem _ hx), hk⟩
    · rw [if_neg h2]
      refine ⟨k, e :: plains, by rw [hst]; rfl, ?_, hk⟩
      intro x hx
      rcases List.mem_cons.1 hx with h | h
      · subst h
        exact ⟨fun h0 => h1 (Or.inl h0), he, fun h0 => h1 (Or.inr h0), h2⟩
      · exact hpl x h

theorem foldl_cleanStep_stackOK (r : Bool) (l : List Str) (st : List Str) (hst : StackOK r st)
    (hl : ∀ e ∈ l, '/' ∉ e) : StackOK r (l.foldl (cleanStep r) st) := by
  induction l generalizing st with
  | nil => exact hst
  | cons a l ih =>
    simp only [List.foldl_cons]
    exact ih _ (cleanStep_stackOK r st a hst (hl a (List.mem_cons_self _ _)))
      (fun e he => hl e (List.mem_cons_of_mem _ he))

theorem foldl_cleanStep_dotdots (k j : Nat) :
    (List.replicate k ['.', '.']).foldl (cleanStep false) (List.replicate j ['.', '.'])
      = List.replicate (j + k) ['.', '.'] := by
  induction k generalizing j with
  | zero => rfl
  | succ k ih =>
    rw [List.replicate_succ, List.foldl_cons]
    have hstep : cleanStep false (List.replicate j ['.', '.']) ['.', '.']
        = List.replicate (j + 1) ['.', '.'] := by
      cases j with
      | zero => rfl
      | succ j => simp [cleanStep, List.replicate_succ]
    rw [hstep, ih]
    congr 1
    omega

theorem foldl_cleanStep_plains (r : Bool) (ps st : List Str) (hps : ∀ x ∈ ps, PlainElem x) :
    ps.foldl (cleanStep r) st = ps.reverse ++ st := by
  induction ps generalizing st with
  | nil => rfl
  | cons p ps ih =>
    rw [List.foldl_cons, cleanStep_plain r st p (hps p (List.mem_cons_self _ _)),
      ih _ (fun x hx => hps x (List.mem_cons_of_mem _ hx))]
    simp

theorem foldl_cleanStep_reverse (r : Bool) (st : List Str) (hst : StackOK r st) :
    st.reverse.foldl (cleanStep r) [] = st := by
  obtain ⟨k, plains, hst, hpl, hk⟩ := hst
  subst hst
  rw [List.reverse_append, List.reverse_replicate, List.foldl_append]
  have hdd : (List.replicate k ['.', '.']).foldl (cleanStep r) [] = List.replicate k ['.', '.'] := by
    cases r
    · have := foldl_cleanStep_dotdots k 0
      simpa using this
    · rw [hk rfl]; rfl
  rw [hdd, foldl_cleanStep_plains r _ _ (fun x hx => hpl x (List.mem_reverse.1 hx))]
  simp

theorem cleanElems_renderPath (r : Bool) (p : Str) :
    cleanElems r (renderPath r (cleanElems r p)) = cleanElems r p := by
  have hok : StackOK r ((splitSlash p).foldl (cleanStep r) []) :=
    foldl_cleanStep_stackOK r _ [] ⟨0, [], rfl, by simp, by simp⟩ (no_slash_of_mem_splitSlash p)
  have hgood := cleanElems_good r p
  have hfold : (cleanElems r p).foldl (cleanStep r) [] = (cleanElems r p).reverse := by
    have := foldl_cleanStep_reverse r _ hok
    unfold cleanElems
    rw [this, List.reverse_reverse]
  generalize cleanElems r p = S at hgood hfold
  by_cases hS : S = []
  · rw [hS]
    cases r <;> rfl
  · have hsplit := splitSlash_joinStr S hS (fun e he => (hgood e he).2)
    cases r
    · simp only [renderPath, Bool.false_eq_true, if_false, if_neg hS]
      unfold cleanElems
      rw [hsplit, hfold, List.reverse_reverse]
    · simp only [renderPath, if_true]
      unfold cleanElems
      simp only [splitSlash, if_true]
      rw [hsplit, List.foldl_cons]
      have : cleanStep true [] [] = [] := rfl
      rw [this, hfold, List.reverse_reverse]

theorem clean_clean (p : Str) : clean (clean p) = clean p := by
  have h : isAbs (clean p) = isAbs p := isAbs_clean p
  have h2 : clean p = renderPath (isAbs p) (cleanElems (isAbs p) p) := rfl
  show renderPath (isAbs (clean p)) (cleanElems (isAbs (clean p)) (clean p)) = clean p
  rw [h, h2, cleanElems_renderPath]

theorem clean_joinPath (elems : List Str) (h : joinPath elems ≠ []) :
    clean (joinPath elems) = joinPath elems := by
  unfold joinPath at h ⊢
  cases hd : elems.dropWhile (fun e => decide (e = [])) with
  | nil => rw [hd] at h; exact absurd rfl h
  | cons e es => simp only [clean_clean]

/-! ## The paths stored by `newBuildCtx` -/

theorem newBuildCtx_isAbs (cfg : Config) (goos goarch wd : Str) (ctx : buildCtx)
    (h : newBuildCtx cfg goos goarch (some wd) = some ctx) :
    isAbs ctx.buildRoot = isAbs cfg.BuildRoot ∧
    isAbs ctx.srcRoot = isAbs cfg.BuildRoot ∧
    isAbs ctx.srcDir = isAbs cfg.BuildRoot ∧
    isAbs ctx.buildDir = isAbs cfg.BuildRoot ∧
    isAbs ctx.installDir = isAbs cfg.InstallRoot ∧
    isAbs ctx.finalRoot = isAbs cfg.FinalRoot ∧
    isAbs ctx.finalInclude = isAbs cfg.FinalRoot ∧
    isAbs ctx.finalLibDir = isAbs cfg.FinalRoot := by
  simp only [newBuildCtx, Option.some.injEq] at h
  subst h
  refine ⟨?_, ?_, ?_, ?_, ?_, ?_, ?_, ?_⟩
  · exact isAbs_clean _
  · simp only [isAbs_joinPath_cons _ _ (clean_ne_nil _), isAbs_clean]
  · simp only [isAbs_joinPath_cons _ _ (joinPath_cons_ne_nil _ _ (clean_ne_nil _)),
      isAbs_joinPath_cons _ _ (clean_ne_nil _), isAbs_clean]
  · simp only [isAbs_joinPath_cons _ _ (clean_ne_nil _), isAbs_clean]
  · simp only [isAbs_joinPath_cons _ _ (clean_ne_nil _), isAbs_clean]
  · exact isAbs_clean _
  · simp only [isAbs_joinPath_cons _ _ (clean_ne_nil _), isAbs_clean]
  · simp only [isAbs_joinPath_cons _ _ (clean_ne_nil _), isAbs_clean]

theorem newBuildCtx_cleaned (cfg : Config) (goos goarch wd : Str) (ctx : buildCtx)
    (h : newBuildCtx cfg goos goarch (some wd) = some ctx) :
    ∀ p ∈ [ctx.buildRoot, ctx.srcRoot, ctx.srcDir, ctx.buildDir, ctx.installDir,
      ctx.finalRoot, ctx.finalInclude, ctx.finalLibDir], clean p = p := by
  simp only [newBuildCtx, Option.some.injEq] at h
  subst h
  intro p hp
  simp only [List.mem_cons, List.mem_singleton, List.not_mem_nil, or_false] at hp
  rcases hp with rfl | rfl | rfl | rfl | rfl | rfl | rfl | rfl
  · exact clean_clean _
  · exact clean_joinPath _ (joinPath_cons_ne_nil _ _ (clean_ne_nil _))
  · exact clean_joinPath _
      (joinPath_cons_ne_nil _ _ (joinPath_cons_ne_nil _ _ (clean_ne_nil _)))
  · exact clean_joinPath _ (joinPath_cons_ne_nil _ _ (clean_ne_nil _))
  · exact clean_joinPath _ (joinPath_cons_ne_nil _ _ (clean_ne_nil _))
  · exact clean_clean _
  · exact clean_joinPath _ (joinPath_cons_ne_nil _ _ (clean_ne_nil _))
  · exact clean_joinPath _ (joinPath_cons_ne_nil _ _ (clean_ne_nil _))

theorem newBuildCtx_some (cfg : Config) (goos goarch wd : Str) :
    ∃ ctx, newBuildCtx cfg goos goarch (some wd) = some ctx :=
  ⟨_, rfl⟩

theorem default_roots_relative (uni : Char → Char) :
    isAbs (configFromEnv uni (fun _ => [])).BuildRoot = false ∧
    isAbs (configFromEnv uni (fun _ => [])).InstallRoot = false ∧
    isAbs (configFromEnv uni (fun _ => [])).FinalRoot = false :=
  ⟨rfl, rfl, rfl⟩

/-- C8, amended. For every configuration, platform and working directory,
`newBuildCtx` returns a context whose eight directory paths come from the
configured roots by `filepath.Clean` and `filepath.Join` alone: the build root
is the cleaned build-cache root; source root, source dir and per-target build
dir are joined below it; the per-target install dir is the target joined below
the cleaned install root; the final root is the cleaned final-artifacts root,
with the final include dir and the final per-target lib dir joined below it.
Each of the eight is a cleaned path (`filepath.Clean` leaves it unchanged) and
is absolute exactly when the configured root it comes from is absolute. With
every configuration variable at its default all eight are relative. -/
theorem newBuildCtx_abs_as_roots (cfg : Config) (goos goarch wd : Str) :
    ∃ ctx, newBuildCtx cfg goos goarch (some wd) = some ctx ∧
      ctx.target = (if cfg.TargetTriple = [] then goos ++ "-".toList ++ goarch
        else cfg.TargetTriple) ∧
      ctx.buildRoot = clean cfg.BuildRoot ∧
      ctx.srcRoot = joinPath [ctx.buildRoot, "_src".toList] ∧
      ctx.srcDir = joinPath [ctx.srcRoot, cfg.SourceDirName] ∧
      ctx.buildDir = joinPath [ctx.buildRoot, "_build_".toList ++ ctx.target] ∧
      ctx.installDir = joinPath [clean cfg.InstallRoot, ctx.target] ∧
      ctx.finalRoot = clean cfg.FinalRoot ∧
      ctx.finalInclude = joinPath [ctx.finalRoot, "include".toList] ∧
      ctx.finalLibDir = joinPath [ctx.finalRoot, ctx.target, "lib".toList] ∧
      (∀ p ∈ [ctx.buildRoot, ctx.srcRoot, ctx.srcDir, ctx.buildDir, ctx.installDir,
        ctx.finalRoot, ctx.finalInclude, ctx.finalLibDir], clean p = p) ∧
      (∀ p ∈ [ctx.buildRoot, ctx.srcRoot, ctx.srcDir, ctx.buildDir],
        isAbs p = isAbs cfg.BuildRoot) ∧
      isAbs ctx.installDir = isAbs cfg.InstallRoot ∧
      (∀ p ∈ [ctx.finalRoot, ctx.finalInclude, ctx.finalLibDir],
        isAbs p = isAbs cfg.FinalRoot) ∧
      (∀ uni, ∃ d, newBuildCtx (configFromEnv uni (fun _ => [])) goos goarch (some wd) = some d ∧
        ∀ p ∈ [d.buildRoot, d.srcRoot, d.srcDir, d.buildDir, d.installDir,
          d.finalRoot, d.finalInclude, d.finalLibDir], isAbs p = false) := by
  obtain ⟨a1, a2, a3, a4, a5, a6, a7, a8⟩ := newBuildCtx_isAbs cfg goos goarch wd _ rfl
  refine ⟨_, rfl, rfl, rfl, rfl, rfl, rfl, rfl, rfl, rfl, rfl,
    newBuildCtx_cleaned cfg goos goarch wd _ rfl, ?_, a5, ?_, ?_⟩
  · intro p hp
    simp only [List.mem_cons, List.mem_singleton, List.not_mem_nil, or_false] at hp
    rcases hp with rfl | rfl | rfl | rfl
    · exact a1
    · exact a2
    · exact a3
    · exact a4
  · intro p hp
    simp only [List.mem_cons, List.mem_singleton, List.not_mem_nil, or_false] at hp
    rcases hp with rfl | rfl | rfl
    · exact a6
    · exact a7
    · exact a8
  · intro uni
    obtain ⟨d, hd⟩ := newBuildCtx_some (configFromEnv uni (fun _ => [])) goos goarch wd
    obtain ⟨b1, b2, b3, b4, b5, b6, b7, b8⟩ :=
      newBuildCtx_isAbs (configFromEnv uni (fun _ => [])) goos goarch wd d hd
    obtain ⟨r1, r2, r3⟩ := default_roots_relative uni
    refine ⟨d, hd, ?_⟩
    intro p hp
    simp only [List.mem_cons, List.mem_singleton, List.not_mem_nil, or_false] at hp
    rcases hp with rfl | rfl | rfl | rfl | rfl | rfl | rfl | rfl
    · rw [b1, r1]
    · rw [b2, r1]
    · rw [b3, r1]
    · rw [b4, r1]
    · rw [b5, r2]
    · rw [b6, r3]
    · rw [b7, r3]
    · rw [b8, r3]

theorem finalAbs_default (wd : Str) :
    finalAbs (some wd) = mustAbs (some wd)
      (clean (joinPath ["dwg_service".toList, "libs".toList, "libredwg".toList])) := by
  have hD : joinPath ["dwg_service".toList, "libs".toList, "libredwg".toList]
      = "dwg_service/libs/libredwg".toList := by decide
  have hc : clean "dwg_service/libs/libredwg".toList = "dwg_service/libs/libredwg".toList := by
    decide
  have hrel : isAbs "dwg_service/libs/libredwg".toList = false := by decide
  unfold finalAbs
  rw [hD, hc]
  unfold mustAbs
  rw [hrel]
  simp only [Bool.false_eq_true, if_false, Option.map_some', toSlash]
  rw [clean_joinPath _ (joinPath_pair_ne_nil _ _ (by decide))]

/-! ## Facts about `rewriteFlagsForCgo` -/

theorem mustAbs_some (wd p : Str) : ∃ q, mustAbs (some wd) p = some q := by
  unfold mustAbs
  split_ifs
  · exact ⟨_, rfl⟩
  · exact ⟨_, rfl⟩

theorem installAbs_some (wd : Str) (ctx : buildCtx) :
    ∃ P, installAbs (some wd) ctx = some P ∧ P ≠ [] := by
  obtain ⟨q, hq⟩ := mustAbs_some wd ctx.installDir
  exact ⟨_, by rw [installAbs, hq]; rfl, clean_ne_nil q⟩

theorem finalAbs_some (wd : Str) : ∃ F, finalAbs (some wd) = some F ∧ F ≠ [] := by
  obtain ⟨q, hq⟩ := mustAbs_some wd
    (joinPath ["dwg_service".toList, "libs".toList, "libredwg".toList])
  exact ⟨_, by rw [finalAbs, hq]; rfl, clean_ne_nil q⟩

theorem rewriteFlagsForCgo_eq (wd : Str) (ctx : buildCtx) (s P F : Str)
    (hP : installAbs (some wd) ctx = some P) (hF : finalAbs (some wd) = some F) :
    rewriteFlagsForCgo (some wd) ctx s = some
      (if trimSpace s = [] then []
       else trimSpace (replaceAll (replaceAll (replaceAll s ['\\'] ['/']) P finalRootCgo)
        F finalRootCgo)) := by
  unfold rewriteFlagsForCgo
  rw [hP, hF]
  split_ifs <;> rfl

theorem rewriteFlagsForCgo_some (wd : Str) (ctx : buildCtx) (s : Str) :
    ∃ r, rewriteFlagsForCgo (some wd) ctx s = some r := by
  obtain ⟨P, hP, _⟩ := installAbs_some wd ctx
  obtain ⟨F, hF, _⟩ := finalAbs_some wd
  exact ⟨_, rewriteFlagsForCgo_eq wd ctx s P F hP hF⟩

/-- C4 fails as stated: with install root `/libredwg` and triple `x86_64` the
install prefix is `/libredwg/x86_64`, and the flag
`-I/libredwg/x86_64/x86_64/include` is rewritten to
`-I${SRCDIR}/libs/libredwg/x86_64/include`, which contains the prefix again. -/
theorem rewriteFlagsForCgo_prefix_reappears :
    (newBuildCtx { configFromEnv id (fun _ => []) with
          InstallRoot := "/libredwg".toList, TargetTriple := "x86_64".toList }
        "linux".toList "amd64".toList (some "/home/dev/dwg-go".toList)).bind
      (fun ctx => (installAbs (some "/home/dev/dwg-go".toList) ctx).bind
        (fun P => (rewriteFlagsForCgo (some "/home/dev/dwg-go".toList) ctx
            "-I/libredwg/x86_64/x86_64/include".toList).map
          (fun r => (P, r, containsStr r P))))
      = some ("/libredwg/x86_64".toList,
          "-I$\x7bSRCDIR\x7d/libs/libredwg/x86_64/include".toList, true) := by
  decide

/-- C4, amended. For every flag string `s` and context, when the absolute
install prefix `P` contains no `$` and no non-empty proper suffix of the
placeholder `${SRCDIR}/libs/libredwg` (such as `/libredwg`) starts `P` or is
started by `P`, the string returned by `rewriteFlagsForCgo` contains no
occurrence of `P`. -/
theorem rewriteFlagsForCgo_removes_install (wd : Str) (ctx : buildCtx) (s P : Str)
    (hP : installAbs (some wd) ctx = some P)
    (hcf : clashFree P finalRootCgo = true) :
    ∃ r, rewriteFlagsForCgo (some wd) ctx s = some r ∧ containsStr r P = false := by
  obtain ⟨P2, hP2, hPne⟩ := installAbs_some wd ctx
  rw [hP, Option.some.injEq] at hP2
  subst hP2
  obtain ⟨F, hF, hFne⟩ := finalAbs_some wd
  refine ⟨_, rewriteFlagsForCgo_eq wd ctx s P F hP hF, ?_⟩
  rw [containsStr_false_iff]
  split_ifs
  · rw [List.infix_nil]; exact hPne
  · intro h
    refine no_infix_replaceAll P F _ hPne hFne hcf (Or.inr ?_) (h.trans (trimSpace_inside _))
    exact no_infix_replaceAll P P _ hPne hPne hcf (Or.inl rfl)

/-- C4, amended, at the install prefix `/abs/install/x86_64` and the flag
`-I/abs/install/x86_64/include`. -/
theorem rewriteFlagsForCgo_removes_install_witness :
    ∃ ctx r, newBuildCtx { configFromEnv id (fun _ => []) with
          InstallRoot := "/abs/install".toList, TargetTriple := "x86_64".toList }
        "linux".toList "amd64".toList (some "/home/dev/dwg-go".toList) = some ctx ∧
      rewriteFlagsForCgo (some "/home/dev/dwg-go".toList) ctx
        "-I/abs/install/x86_64/include".toList = some r ∧
      r = "-I$\x7bSRCDIR\x7d/libs/libredwg/include".toList ∧
      containsStr r "/abs/install/x86_64".toList = false := by
  refine ⟨_, _, rfl, rfl, by decide, ?_⟩
  obtain ⟨r, h1, h2⟩ := rewriteFlagsForCgo_removes_install "/home/dev/dwg-go".toList
    { goos := "linux".toList, goarch := "amd64".toList, target := "x86_64".toList,
      buildRoot := "dwg_service/build".toList, srcRoot := "dwg_service/build/_src".toList,
      srcDir := "dwg_service/build/_src/libredwg".toList,
      buildDir := "dwg_service/build/_build_x86_64".toList,
      installDir := "/abs/install/x86_64".toList,
      finalRoot := "dwg_service/libs/libredwg".toList,
      finalInclude := "dwg_service/libs/libredwg/include".toList,
      finalLibDir := "dwg_service/libs/libredwg/x86_64/lib".toList,
      finalLibA := [], wd := "/home/dev/dwg-go".toList }
    "-I/abs/install/x86_64/include".toList "/abs/install/x86_64".toList
    (by decide) (by decide)
  have h3 : r = "-I$\x7bSRCDIR\x7d/libs/libredwg/include".toList :=
    Option.some.inj (h1.symm.trans (by decide))
  rw [h3] at h2
  exact h2
/-- C5 fails as stated: with the final-artifacts root configured as
`/opt/dwg-final`, the flags `-I/opt/dwg-final/include
-L/opt/dwg-final/linux-amd64/lib` come back unchanged and still contain the
absolute path of `ctx.finalRoot`. -/
theorem rewriteFlagsForCgo_keeps_configured_final :
    (newBuildCtx { configFromEnv id (fun _ => []) with FinalRoot := "/opt/dwg-final".toList }
        "linux".toList "amd64".toList (some "/home/dev/dwg-go".toList)).bind
      (fun ctx => (mustAbs (some "/home/dev/dwg-go".toList) ctx.finalRoot).bind
        (fun A => (rewriteFlagsForCgo (some "/home/dev/dwg-go".toList) ctx
            "-I/opt/dwg-final/include -L/opt/dwg-final/linux-amd64/lib".toList).map
          (fun r => (A, r, containsStr r A))))
      = some ("/opt/dwg-final".toList,
          "-I/opt/dwg-final/include -L/opt/dwg-final/linux-amd64/lib".toList, true) := by
  decide

/-- C5, amended. `rewriteFlagsForCgo` rewrites the absolute path `F` of the
default final-artifacts location `dwg_service/libs/libredwg` under the working
directory, whatever final-artifacts root is configured: for every context and
flag string `s`, when `F` contains no `$` and no non-empty proper suffix of the
placeholder `${SRCDIR}/libs/libredwg` starts `F` or is started by `F`, the
result contains no occurrence of `F`. When the final root of the context is the
default one, `F` is its absolute form. -/
theorem rewriteFlagsForCgo_removes_default_final (wd : Str) (ctx : buildCtx) (s F : Str)
    (hF : finalAbs (some wd) = some F)
    (hcf : clashFree F finalRootCgo = true) :
    (∃ r, rewriteFlagsForCgo (some wd) ctx s = some r ∧ containsStr r F = false) ∧
      (ctx.finalRoot = clean (joinPath ["dwg_service".toList, "libs".toList, "libredwg".toList]) →
        mustAbs (some wd) ctx.finalRoot = some F) := by
  obtain ⟨F2, hF2, hFne⟩ := finalAbs_some wd
  rw [hF, Option.some.injEq] at hF2
  subst hF2
  obtain ⟨P, hP, _⟩ := installAbs_some wd ctx
  refine ⟨⟨_, rewriteFlagsForCgo_eq wd ctx s P F hP hF, ?_⟩, ?_⟩
  · rw [containsStr_false_iff]
    split_ifs
    · rw [List.infix_nil]; exact hFne
    · intro h
      exact no_infix_replaceAll F F _ hFne hFne hcf (Or.inl rfl) (h.trans (trimSpace_inside _))
  · intro hroot
    rw [hroot, ← finalAbs_default wd, hF]

/-- C5, amended, in the working directory `/home/dev/dwg-go` with default
roots, at a flag that points into
`/home/dev/dwg-go/dwg_service/libs/libredwg`. -/
theorem rewriteFlagsForCgo_removes_default_final_witness :
    ∃ ctx r, newBuildCtx (configFromEnv id (fun _ => []))
        "linux".toList "amd64".toList (some "/home/dev/dwg-go".toList) = some ctx ∧
      rewriteFlagsForCgo (some "/home/dev/dwg-go".toList) ctx
        "-L/home/dev/dwg-go/dwg_service/libs/libredwg/linux-amd64/lib".toList = some r ∧
      r = "-L$\x7bSRCDIR\x7d/libs/libredwg/linux-amd64/lib".toList ∧
      containsStr r "/home/dev/dwg-go/dwg_service/libs/libredwg".toList = false := by
  refine ⟨_, _, rfl, rfl, by decide, ?_⟩
  obtain ⟨⟨r, h1, h2⟩, _⟩ := rewriteFlagsForCgo_removes_default_final "/home/dev/dwg-go".toList
    { goos := "linux".toList, goarch := "amd64".toList, target := "linux-amd64".toList,
      buildRoot := "dwg_service/build".toList, srcRoot := "dwg_service/build/_src".toList,
      srcDir := "dwg_service/build/_src/libredwg".toList,
      buildDir := "dwg_service/build/_build_linux-amd64".toList,
      installDir := "dwg_service/build/_install/linux-amd64".toList,
      finalRoot := "dwg_service/libs/libredwg".toList,
      finalInclude := "dwg_service/libs/libredwg/include".toList,
      finalLibDir := "dwg_service/libs/libredwg/linux-amd64/lib".toList,
      finalLibA := [], wd := "/home/dev/dwg-go".toList }
    "-L/home/dev/dwg-go/dwg_service/libs/libredwg/linux-amd64/lib".toList
    "/home/dev/dwg-go/dwg_service/libs/libredwg".toList
    (by decide) (by decide)
  have h3 : r = "-L$\x7bSRCDIR\x7d/libs/libredwg/linux-amd64/lib".toList :=
    Option.some.inj (h1.symm.trans (by decide))
  rw [h3] at h2
  exact h2
/-! ## Facts about `generateCgo` -/

theorem firstOccurrences_of_nodup (l : List Str) (h : l.Nodup) : firstOccurrences l = l := by
  induction l using List.reverseRecOn with
  | nil => rfl
  | append_singleton l a ih =>
    rw [List.nodup_append] at h
    obtain ⟨h1, _, h3⟩ := h
    have ha : a ∉ l := fun ha => h3 ha (List.mem_singleton_self a)
    rw [firstOccurrences_snoc, ih h1, if_neg ha]

theorem generateCgo_eq (cfg : Config) (wd : Str) (ctx : buildCtx) (disc : Str × Str × Bool)
    (cflags ldflags : Str)
    (h1 : rewriteFlagsForCgo (some wd) ctx disc.1 = some cflags)
    (h2 : rewriteFlagsForCgo (some wd) ctx disc.2.1 = some ldflags) :
    generateCgo cfg (some wd) ctx disc =
      some (cgoHeader cfg ctx ++ cppLine cflags ++ ldLine ctx ldflags disc.2.2 ++ importLine) := by
  unfold generateCgo
  rw [h1, h2]

theorem fields_cppInput (cflags : Str) :
    fields (trimSpace (joinStr
      ["-I".toList ++ cgoInc, "-D_LARGEFILE_SOURCE".toList, "-D_LARGEFILE64_SOURCE".toList,
        "-D_FILE_OFFSET_BITS=64".toList, cflags] " ".toList)) = cppFixed ++ fields cflags := by
  rw [fields_trimSpace]
  have hI : "-I".toList ++ cgoInc = "-I$\x7bSRCDIR\x7d/libs/libredwg/include".toList := by decide
  rw [hI]
  simp only [joinStr_cons_cons, joinStr_singleton, List.append_assoc]
  have hsp : " ".toList = [' '] := rfl
  rw [hsp]
  simp only [List.singleton_append]
  rw [fields_token_space _ _ ' ' (by decide) ⟨by decide, by decide⟩,
    fields_token_space _ _ ' ' (by decide) ⟨by decide, by decide⟩,
    fields_token_space _ _ ' ' (by decide) ⟨by decide, by decide⟩,
    fields_token_space _ _ ' ' (by decide) ⟨by decide, by decide⟩]
  rfl

theorem fields_cgoCpp (cflags : Str) :
    fields (cgoCpp cflags) =
      cppFixed ++ (firstOccurrences (fields cflags)).filter (fun t => decide (t ∉ cppFixed)) := by
  unfold cgoCpp
  rw [fields_dedupBySpace, fields_cppInput, firstOccurrences_append,
    firstOccurrences_of_nodup cppFixed (by decide)]

theorem fields_directive (a b c body : Str) (ha : GoodToken a) (hb : GoodToken b)
    (hc : GoodToken c) :
    fields (a ++ ' ' :: (b ++ ' ' :: (c ++ ' ' :: (body ++ ['\n'])))) =
      a :: b :: c :: fields body := by
  rw [fields_token_space _ _ ' ' (by decide) ha, fields_token_space _ _ ' ' (by decide) hb,
    fields_token_space _ _ ' ' (by decide) hc]
  unfold fields
  rw [fieldsAux_append_spaces _ _ _ (by decide)]

/-- C7. For every configuration, context and discovered flags, the text written
by `generateCgo` holds the compile-flags line `cppLine`, which is the directive
`// #cgo CPPFLAGS: ` followed by tokens joined by single spaces; these tokens
are, in order, `-I${SRCDIR}/libs/libredwg/include`, `-D_LARGEFILE_SOURCE`,
`-D_LARGEFILE64_SOURCE`, `-D_FILE_OFFSET_BITS=64`, then the tokens of the
rewritten discovered compile flags that did not appear earlier, each once at
its first occurrence. The include flag of the project is the first token. -/
theorem generateCgo_cppflags_order (cfg : Config) (wd : Str) (ctx : buildCtx)
    (disc : Str × Str × Bool) :
    ∃ cflags ldflags,
      rewriteFlagsForCgo (some wd) ctx disc.1 = some cflags ∧
      generateCgo cfg (some wd) ctx disc =
        some (cgoHeader cfg ctx ++ cppLine cflags ++ ldLine ctx ldflags disc.2.2 ++ importLine) ∧
      cppLine cflags = "// #cgo CPPFLAGS: ".toList ++
        joinStr (cppFixed ++
          (firstOccurrences (fields cflags)).filter (fun t => decide (t ∉ cppFixed)))
          " ".toList ++ "\n".toList ∧
      fields (cppLine cflags) = ["//".toList, "#cgo".toList, "CPPFLAGS:".toList] ++ cppFixed ++
        (firstOccurrences (fields cflags)).filter (fun t => decide (t ∉ cppFixed)) ∧
      (fields (cgoCpp cflags)).head? = some ("-I".toList ++ cgoInc) := by
  obtain ⟨cflags, h1⟩ := rewriteFlagsForCgo_some wd ctx disc.1
  obtain ⟨ldflags, h2⟩ := rewriteFlagsForCgo_some wd ctx disc.2.1
  refine ⟨cflags, ldflags, h1, generateCgo_eq cfg wd ctx disc cflags ldflags h1 h2, ?_, ?_, ?_⟩
  · unfold cppLine
    have h : cgoCpp cflags = joinStr (fields (cgoCpp cflags)) " ".toList := by
      conv_lhs => unfold cgoCpp
      rw [dedupBySpace_eq, ← fields_dedupBySpace]
      rfl
    rw [h, fields_cgoCpp]
  · unfold cppLine
    have h := fields_directive "//".toList "#cgo".toList "CPPFLAGS:".toList (cgoCpp cflags)
      ⟨by decide, by decide⟩ ⟨by decide, by decide⟩ ⟨by decide, by decide⟩
    rw [fields_cgoCpp] at h
    simpa using h
  · rw [fields_cgoCpp]; rfl
theorem cgoLibA_good (ctx : buildCtx) (ht : ∀ c ∈ ctx.target, isSpace c = false)
    (hn : ∀ c ∈ base ctx.finalLibA, isSpace c = false) : GoodToken (cgoLibA ctx) := by
  unfold cgoLibA
  refine ⟨by simp, ?_⟩
  intro c hc
  simp only [List.mem_append] at hc
  rcases hc with ((hc | hc) | hc) | hc
  · rcases hc with hc | hc
    · revert c; decide
    · exact ht c hc
  · revert c; decide
  · revert c; decide
  · exact hn c hc

theorem cgoLibA_head (ctx : buildCtx) : ∃ t, cgoLibA ctx = '$' :: t :=
  ⟨_, rfl⟩

theorem cgoLd_fallback (ctx : buildCtx) (ldflags : Str)
    (ht : ∀ c ∈ ctx.target, isSpace c = false)
    (hn : ∀ c ∈ base ctx.finalLibA, isSpace c = false) :
    cgoLd ctx ldflags false = cgoLibA ctx ++ " -lm -lz -liconv".toList := by
  have hg := cgoLibA_good ctx ht hn
  obtain ⟨t, hhead⟩ := cgoLibA_head ctx
  unfold cgoLd
  simp only [Bool.false_and, Bool.false_eq_true, if_false]
  rw [dedupBySpace_eq, fields_trimSpace]
  have hsp : " ".toList = [' '] := rfl
  rw [hsp, fields_joinStr]
  · rw [firstOccurrences_of_nodup]
    · simp only [joinStr_cons_cons, joinStr_singleton, List.append_assoc]
      rfl
    · rw [List.nodup_cons]
      refine ⟨?_, by decide⟩
      rw [hhead]
      intro hmem
      have hd : ∀ x ∈ ["-lm".toList, "-lz".toList, "-liconv".toList], x.head? = some '-' := by
        decide
      have := hd _ hmem
      simp at this
  · intro x hx
    simp only [List.mem_cons, List.mem_singleton, List.not_mem_nil, or_false] at hx
    rcases hx with h | h | h | h
    · rw [h]; exact hg
    · rw [h]; exact ⟨by decide, by decide⟩
    · rw [h]; exact ⟨by decide, by decide⟩
    · rw [h]; exact ⟨by decide, by decide⟩

/-- C6 fails as stated: when the staged library is named `libre  dwg.a` (two
spaces), the fallback link line holds the name with one space, not the
static-library path verbatim. -/
theorem generateCgo_fallback_splits_name :
    (newBuildCtx (configFromEnv id (fun _ => [])) "linux".toList "amd64".toList
        (some "/home/dev/dwg-go".toList)).bind
      (fun c => (findStaticLib id (fun _ => some [⟨"libre  dwg.a".toList, false⟩])
          (joinPath [c.installDir, "lib".toList])).map
        (fun libA => (base (withFinalLibA c libA).finalLibA,
          ldLine (withFinalLibA c libA) [] false)))
      = some ("libre  dwg.a".toList,
          "// #cgo LDFLAGS: $\x7bSRCDIR\x7d/libs/libredwg/linux-amd64/lib/libre dwg.a -lm -lz -liconv\n".toList) := by
  decide

/-- C6, amended. For every configuration, context and discovered flags with
`found = false`, when neither the target nor the file name of the staged
library contains white space, the text written by `generateCgo` holds the
link-flags line `// #cgo LDFLAGS: ` followed by
`${SRCDIR}/libs/libredwg/<target>/lib/<file name>` followed verbatim by
` -lm -lz -liconv`. -/
theorem generateCgo_fallback_ldflags (cfg : Config) (wd : Str) (ctx : buildCtx)
    (cf lf : Str)
    (ht : ∀ c ∈ ctx.target, isSpace c = false)
    (hn : ∀ c ∈ base ctx.finalLibA, isSpace c = false) :
    ∃ cflags,
      generateCgo cfg (some wd) ctx (cf, lf, false) =
        some (cgoHeader cfg ctx ++ cppLine cflags ++
          ("// #cgo LDFLAGS: ".toList ++
            ("$\x7bSRCDIR\x7d/libs/libredwg/".toList ++ ctx.target ++ "/lib/".toList ++
              base ctx.finalLibA) ++ " -lm -lz -liconv".toList ++ "\n".toList) ++
          importLine) := by
  obtain ⟨cflags, h1⟩ := rewriteFlagsForCgo_some wd ctx cf
  obtain ⟨ldflags, h2⟩ := rewriteFlagsForCgo_some wd ctx lf
  refine ⟨cflags, ?_⟩
  rw [generateCgo_eq cfg wd ctx (cf, lf, false) cflags ldflags h1 h2]
  simp only [ldLine, cgoLd_fallback ctx ldflags ht hn, cgoLibA, List.append_assoc]
  rfl

/-- C6, amended, for the default context on linux/amd64 with the staged library
`libredwg.a`. -/
theorem generateCgo_fallback_ldflags_witness :
    ∃ ctx cflags, (newBuildCtx (configFromEnv id (fun _ => [])) "linux".toList "amd64".toList
        (some "/home/dev/dwg-go".toList)).map
          (fun c => withFinalLibA c "dwg_service/build/_install/linux-amd64/lib/libredwg.a".toList)
        = some ctx ∧
      generateCgo (configFromEnv id (fun _ => [])) (some "/home/dev/dwg-go".toList) ctx
          ([], [], false) =
        some (cgoHeader (configFromEnv id (fun _ => [])) ctx ++ cppLine cflags ++
          ("// #cgo LDFLAGS: ".toList ++
            ("$\x7bSRCDIR\x7d/libs/libredwg/".toList ++ ctx.target ++ "/lib/".toList ++
              base ctx.finalLibA) ++ " -lm -lz -liconv".toList ++ "\n".toList) ++
          importLine) ∧
      ctx.target = "linux-amd64".toList ∧ base ctx.finalLibA = "libredwg.a".toList := by
  obtain ⟨cflags, h⟩ := generateCgo_fallback_ldflags (configFromEnv id (fun _ => []))
    "/home/dev/dwg-go".toList
    { goos := "linux".toList, goarch := "amd64".toList, target := "linux-amd64".toList,
      buildRoot := "dwg_service/build".toList, srcRoot := "dwg_service/build/_src".toList,
      srcDir := "dwg_service/build/_src/libredwg".toList,
      buildDir := "dwg_service/build/_build_linux-amd64".toList,
      installDir := "dwg_service/build/_install/linux-amd64".toList,
      finalRoot := "dwg_service/libs/libredwg".toList,
      finalInclude := "dwg_service/libs/libredwg/include".toList,
      finalLibDir := "dwg_service/libs/libredwg/linux-amd64/lib".toList,
      finalLibA := "dwg_service/libs/libredwg/linux-amd64/lib/libredwg.a".toList,
      wd := "/home/dev/dwg-go".toList }
    [] [] (by decide) (by decide)
  exact ⟨_, cflags, rfl, h, rfl, by decide⟩
/-! ## The fail-fast helpers -/

theorem mustMkdirAll_exits (h : Host) (path : Str) (r : Run) (hr : r.alive = true)
    (hf : h r.trace (Op.mkdirAll path) = false) : (mustMkdirAll h path r).alive = false := by
  simp [mustMkdirAll, Run.must, hr, hf]

theorem mustRemoveAll_goes_on (h : Host) (path : Str) (r : Run) (hr : r.alive = true) :
    (mustRemoveAll h path r).alive = true := by
  simp [mustRemoveAll, Run.discard, hr]

/-- C10, the code at the failing input. On a host where `os.RemoveAll` fails,
`configureAndBuild` for the default context on linux/amd64 does not exit: after
the two failed removals it creates both directories again and runs configure,
make and make install. On a host where `os.MkdirAll` fails instead, the run
ends at the first directory creation. -/
theorem configureAndBuild_survives_failed_removal :
    (newBuildCtx (configFromEnv id (fun _ => [])) "linux".toList "amd64".toList
        (some "/home/dev/dwg-go".toList)).map
      (fun ctx => configureAndBuild id removalFails (some "/home/dev/dwg-go".toList) ctx
        Run.start)
      = some
        { trace := [
            Op.removeAll "dwg_service/build/_build_linux-amd64".toList,
            Op.removeAll "dwg_service/build/_install/linux-amd64".toList,
            Op.mkdirAll "dwg_service/build/_build_linux-amd64".toList,
            Op.mkdirAll "dwg_service/build/_install/linux-amd64".toList,
            Op.run "dwg_service/build/_build_linux-amd64".toList
              "dwg_service/build/_src/libredwg/configure".toList
              ["--prefix=/home/dev/dwg-go/dwg_service/build/_install/linux-amd64".toList,
                "--disable-shared".toList, "--enable-static".toList],
            Op.run "dwg_service/build/_build_linux-amd64".toList "make".toList ["-j".toList],
            Op.run "dwg_service/build/_build_linux-amd64".toList "make".toList
              ["install".toList]],
          alive := true } ∧
    (newBuildCtx (configFromEnv id (fun _ => [])) "linux".toList "amd64".toList
        (some "/home/dev/dwg-go".toList)).map
      (fun ctx => configureAndBuild id mkdirFails (some "/home/dev/dwg-go".toList) ctx
        Run.start)
      = some
        { trace := [
            Op.removeAll "dwg_service/build/_build_linux-amd64".toList,
            Op.removeAll "dwg_service/build/_install/linux-amd64".toList,
            Op.mkdirAll "dwg_service/build/_build_linux-amd64".toList],
          alive := false } := by
  decide

/-! ## Facts about `ensureSource` -/

theorem must_alive (h : Host) (op : Op) (r : Run) (hr : r.alive = true) :
    r.must h op = { trace := r.trace ++ [op], alive := h r.trace op } := by
  simp [Run.must, hr]

theorem must_dead (h : Host) (op : Op) (r : Run) (hr : r.alive = false) :
    r.must h op = r := by
  simp [Run.must, hr]

theorem discard_alive (h : Host) (op : Op) (r : Run) (hr : r.alive = true) :
    r.discard h op = { trace := r.trace ++ [op], alive := true } := by
  simp [Run.discard, hr]

theorem discard_dead (h : Host) (op : Op) (r : Run) (hr : r.alive = false) :
    r.discard h op = r := by
  simp [Run.discard, hr]

theorem runSteps_dead (h : Host) (steps : List (Bool × Op)) (r : Run) (hr : r.alive = false) :
    runSteps h steps r = r := by
  induction steps with
  | nil => rfl
  | cons s rest ih =>
    obtain ⟨m, op⟩ := s
    simp only [runSteps, must_dead h op r hr, discard_dead h op r hr, ite_self]
    exact ih

theorem runSteps_append (h : Host) (a b : List (Bool × Op)) (r : Run) :
    runSteps h (a ++ b) r = runSteps h b (runSteps h a r) := by
  induction a generalizing r with
  | nil => rfl
  | cons s rest ih =>
    obtain ⟨m, op⟩ := s
    simp only [List.cons_append, runSteps]
    exact ih _

/-- A run of marked actions makes them in order and stops only after an action
that fails and whose error is fatal. -/
theorem runSteps_spec (h : Host) (steps : List (Bool × Op)) (r : Run) (hr : r.alive = true) :
    ∃ k, k ≤ steps.length ∧
      (runSteps h steps r).trace = r.trace ++ (steps.map Prod.snd).take k ∧
      ((runSteps h steps r).alive = true → k = steps.length) ∧
      (k < steps.length → 0 < k ∧ ∃ op, steps.get? (k - 1) = some (true, op) ∧
        h (r.trace ++ (steps.map Prod.snd).take (k - 1)) op = false) := by
  induction steps generalizing r with
  | nil => exact ⟨0, le_refl _, by simp [runSteps], fun _ => rfl, fun hk => absurd hk (by simp)⟩
  | cons s rest ih =>
    obtain ⟨m, op⟩ := s
    simp only [runSteps]
    by_cases hal : (if m then r.must h op else r.discard h op).alive = true
    · have htr : (if m then r.must h op else r.discard h op).trace = r.trace ++ [op] := by
        cases m
        · simp [discard_alive h op r hr]
        · simp [must_alive h op r hr]
      obtain ⟨k, hk, h1, h2, h3⟩ := ih _ hal
      refine ⟨k + 1, by simpa using hk, ?_, ?_, ?_⟩
      · rw [h1, htr]; simp
      · intro ha; rw [h2 ha]; rfl
      · intro hlt
        have hlt2 : k < rest.length := by simpa using hlt
        obtain ⟨hpos, op2, hop, hfail⟩ := h3 hlt2
        refine ⟨Nat.succ_pos _, op2, ?_, ?_⟩
        · have : k + 1 - 1 = (k - 1) + 1 := by omega
          rw [this, List.get?_cons_succ]
          exact hop
        · rw [htr] at hfail
          have : k + 1 - 1 = (k - 1) + 1 := by omega
          rw [this]
          simpa using hfail
    · have hfalse : (if m then r.must h op else r.discard h op).alive = false := by
        simpa using hal
      have hm : m = true := by
        cases m
        · simp [discard_alive h op r hr] at hfalse
        · rfl
      subst hm
      rw [runSteps_dead h rest _ hfalse]
      refine ⟨1, by simp, ?_, ?_, ?_⟩
      · simp [must_alive h op r hr]
      · intro ha; rw [ha] at hfalse; exact absurd hfalse (by simp)
      · intro _
        refine ⟨Nat.one_pos, op, rfl, ?_⟩
        simpa [must_alive h op r hr] using hfalse

theorem ensureSteps_ops (cfg : Config) (ctx : buildCtx) (present : Bool) :
    (ensureSteps cfg ctx present).map Prod.snd = ensurePlan cfg ctx present := by
  unfold ensureSteps ensurePlan ensureSetup
  cases cfg.Clean <;> rfl

theorem ensureSource_eq_runSteps (cfg : Config) (h : Host) (ctx : buildCtx) (r : Run)
    (hr : r.alive = true) :
    ensureSource cfg h ctx r =
      runSteps h (ensureSteps cfg ctx (h (r.trace ++ ensureSetup cfg ctx) (Op.stat ctx.srcDir))) r := by
  obtain ⟨t, a⟩ := r
  simp only at hr
  subst hr
  unfold ensureSource fileExists runCmd mustMkdirAll mustRemoveAll ensureSteps ensureSetup
  rw [must_alive h (Op.mkdirAll ctx.srcRoot) ⟨t, true⟩ rfl]
  cases hc : cfg.Clean
  · simp only [Bool.false_eq_true, if_false, List.nil_append, runSteps, if_true]
    rw [must_alive h (Op.mkdirAll ctx.srcRoot) ⟨t, true⟩ rfl]
    cases h1 : h t (Op.mkdirAll ctx.srcRoot)
    · simp only [Bool.false_eq_true, if_false]
      rw [discard_dead _ _ _ rfl, must_dead _ _ _ rfl, must_dead _ _ _ rfl, must_dead _ _ _ rfl]
    · simp only [if_true]
      rw [discard_alive _ _ _ rfl]
      cases h (t ++ [Op.mkdirAll ctx.srcRoot]) (Op.stat ctx.srcDir) <;> simp <;> rfl
  · simp only [if_true, List.cons_append, List.nil_append, runSteps, Bool.false_eq_true, if_false]
    rw [must_alive h (Op.mkdirAll ctx.srcRoot) ⟨t, true⟩ rfl]
    cases h1 : h t (Op.mkdirAll ctx.srcRoot)
    · rw [discard_dead _ _ _ rfl, must_dead _ _ _ rfl]
      simp only [Bool.false_eq_true, if_false]
      rw [discard_dead _ _ _ rfl, must_dead _ _ _ rfl, must_dead _ _ _ rfl, must_dead _ _ _ rfl]
    · rw [discard_alive h (Op.removeAll ctx.buildRoot) ⟨t ++ [Op.mkdirAll ctx.srcRoot], true⟩ rfl,
        must_alive h (Op.mkdirAll ctx.srcRoot)
          ⟨t ++ [Op.mkdirAll ctx.srcRoot] ++ [Op.removeAll ctx.buildRoot], true⟩ rfl]
      simp only [List.append_assoc, List.singleton_append]
      cases h2 : h (t ++ [Op.mkdirAll ctx.srcRoot, Op.removeAll ctx.buildRoot])
          (Op.mkdirAll ctx.srcRoot)
      · simp only [Bool.false_eq_true, if_false]
        rw [discard_dead _ _ _ rfl, must_dead _ _ _ rfl, must_dead _ _ _ rfl, must_dead _ _ _ rfl]
      · simp only [if_true]
        rw [discard_alive _ _ _ rfl]
        simp only [List.append_assoc, List.cons_append, List.nil_append]
        cases h (t ++ [Op.mkdirAll ctx.srcRoot, Op.removeAll ctx.buildRoot,
          Op.mkdirAll ctx.srcRoot]) (Op.stat ctx.srcDir) <;> simp <;> rfl

theorem ensureSource_shape (cfg : Config) (h : Host) (ctx : buildCtx) (r : Run)
    (hr : r.alive = true) :
    ∃ k, k ≤ (ensurePlan cfg ctx (h (r.trace ++ ensureSetup cfg ctx) (Op.stat ctx.srcDir))).length ∧
      (ensureSource cfg h ctx r).trace = r.trace ++
        (ensurePlan cfg ctx (h (r.trace ++ ensureSetup cfg ctx) (Op.stat ctx.srcDir))).take k ∧
      ((ensureSource cfg h ctx r).alive = true →
        k = (ensurePlan cfg ctx (h (r.trace ++ ensureSetup cfg ctx) (Op.stat ctx.srcDir))).length) ∧
      (k < (ensurePlan cfg ctx (h (r.trace ++ ensureSetup cfg ctx) (Op.stat ctx.srcDir))).length →
        0 < k ∧ ∃ op, (ensureSteps cfg ctx
            (h (r.trace ++ ensureSetup cfg ctx) (Op.stat ctx.srcDir))).get? (k - 1) = some (true, op) ∧
          h (r.trace ++ (ensurePlan cfg ctx
            (h (r.trace ++ ensureSetup cfg ctx) (Op.stat ctx.srcDir))).take (k - 1)) op = false) := by
  rw [ensureSource_eq_runSteps cfg h ctx r hr]
  have := runSteps_spec h
    (ensureSteps cfg ctx (h (r.trace ++ ensureSetup cfg ctx) (Op.stat ctx.srcDir))) r hr
  rw [ensureSteps_ops] at this
  have hlen : (ensureSteps cfg ctx (h (r.trace ++ ensureSetup cfg ctx) (Op.stat ctx.srcDir))).length
      = (ensurePlan cfg ctx (h (r.trace ++ ensureSetup cfg ctx) (Op.stat ctx.srcDir))).length := by
    rw [← ensureSteps_ops, List.length_map]
  rw [hlen] at this
  exact this

theorem git_args_differ :
    "clone".toList ≠ "fetch".toList ∧ "clone".toList ≠ "checkout".toList ∧
    "clone".toList ≠ "submodule".toList ∧ "fetch".toList ≠ "checkout".toList ∧
    "fetch".toList ≠ "submodule".toList ∧ "checkout".toList ≠ "submodule".toList := by
  decide

theorem ensureSource_general (cfg : Config) (h : Host) (ctx : buildCtx) (r : Run)
    (present : Bool) (hr : r.alive = true)
    (hp : present = h (r.trace ++ ensureSetup cfg ctx) (Op.stat ctx.srcDir)) :
    ∃ new : List Op,
      (ensureSource cfg h ctx r).trace = r.trace ++ new ∧
      new <+: ensurePlan cfg ctx present ∧
      ((ensureSource cfg h ctx r).alive = true → new = ensurePlan cfg ctx present) ∧
      gitCmds new <+:
        [if present then gitFetch ctx else gitClone cfg ctx, gitCheckout cfg ctx,
          gitSubmodule ctx] ∧
      ((ensureSource cfg h ctx r).alive = true → gitCmds new =
        [if present then gitFetch ctx else gitClone cfg ctx, gitCheckout cfg ctx,
          gitSubmodule ctx]) ∧
      (gitClone cfg ctx ∈ new ↔ (Op.stat ctx.srcDir ∈ new ∧ present = false)) ∧
      (gitFetch ctx ∈ new ↔ (Op.stat ctx.srcDir ∈ new ∧ present = true)) ∧
      (cfg.Clean = true → Op.stat ctx.srcDir ∈ new →
        [Op.mkdirAll ctx.srcRoot, Op.removeAll ctx.buildRoot, Op.mkdirAll ctx.srcRoot] <+: new) ∧
      ((∀ tr p, h tr (Op.mkdirAll p) = true) → Op.stat ctx.srcDir ∈ new) := by
  obtain ⟨k, hk, htr, hal, hstop⟩ := ensureSource_shape cfg h ctx r hr
  rw [← hp] at hk htr hal hstop
  obtain ⟨g1, g2, g3, g4, g5, g6⟩ := git_args_differ
  refine ⟨(ensurePlan cfg ctx present).take k, htr, List.take_prefix _ _, ?_, ?_, ?_, ?_, ?_, ?_, ?_⟩
  · intro ha; rw [hal ha, List.take_length]
  · have hg : gitCmds (ensurePlan cfg ctx present) =
        [if present then gitFetch ctx else gitClone cfg ctx, gitCheckout cfg ctx,
          gitSubmodule ctx] := by
      cases hc : cfg.Clean <;> cases present <;>
        simp [ensurePlan, ensureSetup, hc, gitCmds, gitClone, gitFetch, gitCheckout,
          gitSubmodule]
    rw [← hg]
    exact (List.take_prefix _ _).filter _
  · intro ha
    rw [hal ha, List.take_length]
    cases hc : cfg.Clean <;> cases present <;>
      simp [ensurePlan, ensureSetup, hc, gitCmds, gitClone, gitFetch, gitCheckout,
        gitSubmodule]
  · clear hal htr
    cases hc : cfg.Clean <;> cases present <;>
      simp only [ensurePlan, ensureSetup, ensureSteps, hc, Bool.false_eq_true, if_false, if_true,
        List.cons_append, List.nil_append, List.length_cons, List.length_nil] at hk hstop ⊢ <;>
      interval_cases k <;>
      simp [gitClone, gitFetch, gitCheckout, gitSubmodule, g1, g2, g3, g4, g5, g6] at hstop ⊢
  · clear hal htr
    cases hc : cfg.Clean <;> cases present <;>
      simp only [ensurePlan, ensureSetup, ensureSteps, hc, Bool.false_eq_true, if_false, if_true,
        List.cons_append, List.nil_append, List.length_cons, List.length_nil] at hk hstop ⊢ <;>
      interval_cases k <;>
      simp [gitClone, gitFetch, gitCheckout, gitSubmodule, g1, g2, g3, g4, g5, g6] at hstop ⊢
  · clear hal htr
    intro hc
    cases present <;>
      simp only [ensurePlan, ensureSetup, ensureSteps, hc, Bool.false_eq_true, if_false, if_true,
        List.cons_append, List.nil_append, List.length_cons, List.length_nil] at hk hstop ⊢ <;>
      interval_cases k <;>
      simp [gitClone, gitFetch, gitCheckout, gitSubmodule] at hstop ⊢
  · clear hal htr
    intro hmk
    cases hc : cfg.Clean <;> cases present <;>
      simp only [ensurePlan, ensureSetup, ensureSteps, hc, Bool.false_eq_true, if_false, if_true,
        List.cons_append, List.nil_append, List.length_cons, List.length_nil] at hk hstop ⊢ <;>
      interval_cases k <;>
      simp [gitClone, gitFetch, gitCheckout, gitSubmodule, hmk] at hstop ⊢

/-! ## Facts about the file system of the host -/

theorem pathElems_clean (p : Str) : pathElems (clean p) = pathElems p := by
  unfold pathElems
  rw [isAbs_clean]
  exact cleanElems_renderPath (isAbs p) p

theorem pathElems_joinPath_pair (d x : Str) (hd : d ≠ []) (hx : PlainElem x) :
    pathElems (joinPath [d, x]) = pathElems d ++ [x] := by
  rw [joinPath_pair d x hx.1, if_neg hd, pathElems_clean]
  unfold pathElems
  rw [isAbs_append d _ hd, cleanElems_snoc _ d x hx]

theorem isWithin_child2 (b x y : Str) (hb : b ≠ []) (hx : PlainElem x) (hy : PlainElem y) :
    isWithin (joinPath [joinPath [b, x], y]) b = true := by
  have hbx : joinPath [b, x] ≠ [] := joinPath_pair_ne_nil b x hx.1
  unfold isWithin
  rw [pathElems_joinPath_pair _ y hbx hy, pathElems_joinPath_pair b x hb hx,
    isAbs_joinPath_cons _ _ hbx, isAbs_joinPath_cons _ _ hb]
  have h1 : (pathElems b).isPrefixOf (pathElems b ++ [x] ++ [y]) = true := by
    rw [List.isPrefixOf_iff_prefix, List.append_assoc]
    exact List.prefix_append _ _
  have h2 : (pathElems b ++ [x] ++ [y]).drop (pathElems b).length = [x, y] := by
    rw [List.append_assoc, List.drop_left]; rfl
  rw [h1, h2]
  have hx2 : x ≠ ['.', '.'] := hx.2.2.2
  simp [hx2]

theorem isWithin_parent (d y : Str) (hd : d ≠ []) (hy : PlainElem y) :
    isWithin d (joinPath [d, y]) = false := by
  unfold isWithin
  rw [pathElems_joinPath_pair d y hd hy]
  have h1 : (pathElems d ++ [y]).isPrefixOf (pathElems d) = false := by
    rw [← Bool.not_eq_true, List.isPrefixOf_iff_prefix]
    intro hpre
    have := hpre.length_le
    simp at this
  rw [h1]
  simp

theorem fsFold_fst (m : FsModel) (tr : List Op) :
    (tr.foldl (fun acc op => (acc.1 ++ [op], fsStep m acc.1 op acc.2))
      (([] : List Op), m.init)).1 = tr := by
  induction tr using List.reverseRecOn with
  | nil => rfl
  | append_singleton l a ih => rw [List.foldl_append]; simp [ih]

theorem fsAfter_snoc (m : FsModel) (tr : List Op) (op : Op) :
    fsAfter m (tr ++ [op]) = fsStep m tr op (fsAfter m tr) := by
  unfold fsAfter
  rw [List.foldl_append]
  simp [fsFold_fst m tr]

/-- After a removal of the build root that succeeds and the creation of the
source root, a source directory that is a plain entry of the source root does
not exist. -/
theorem stat_absent_after_clean (m : FsModel) (t : List Op) (b x y : Str) (hb : b ≠ [])
    (hx : PlainElem x) (hy : PlainElem y)
    (hrm : m.fails (t ++ [Op.mkdirAll (joinPath [b, x])]) (Op.removeAll b) = false) :
    fsHost m (t ++ [Op.mkdirAll (joinPath [b, x]), Op.removeAll b, Op.mkdirAll (joinPath [b, x])])
      (Op.stat (joinPath [joinPath [b, x], y])) = false := by
  have hbx : joinPath [b, x] ≠ [] := joinPath_pair_ne_nil b x hx.1
  have e1 : t ++ [Op.mkdirAll (joinPath [b, x]), Op.removeAll b, Op.mkdirAll (joinPath [b, x])]
      = ((t ++ [Op.mkdirAll (joinPath [b, x])]) ++ [Op.removeAll b]) ++
        [Op.mkdirAll (joinPath [b, x])] := by simp
  unfold fsHost
  simp only [Bool.and_eq_false_imp, Bool.not_eq_true']
  intro _
  rw [e1, fsAfter_snoc, fsAfter_snoc]
  have hin := isWithin_child2 b x y hb hx hy
  have hout := isWithin_parent (joinPath [b, x]) y hbx hy
  simp only [fsStep, hrm, Bool.false_eq_true, if_false]
  split_ifs <;> simp [hin, hout]

theorem fsHost_mkdirAll (m : FsModel) (hmk : ∀ tr p, m.fails tr (Op.mkdirAll p) = false)
    (tr : List Op) (p : Str) : fsHost m tr (Op.mkdirAll p) = true := by
  simp [fsHost, hmk]

/-- C11 fails as stated: with clean enabled and the source directory name
`../../libredwg-src`, the source directory `dwg_service/libredwg-src` lies
outside the build-cache root; on a host where everything below `dwg_service`
exists and no action fails, the build-cache root is removed and the commands
issued are fetch, checkout and submodule update: no clone. -/
theorem ensureSource_clean_without_clone :
    (configFromEnv id (fun k => if k = "DWG_CLEAN".toList then "1".toList
      else if k = "DWG_SRC_DIRNAME".toList then "../../libredwg-src".toList else [])).Clean = true ∧
    (newBuildCtx (configFromEnv id (fun k => if k = "DWG_CLEAN".toList then "1".toList
        else if k = "DWG_SRC_DIRNAME".toList then "../../libredwg-src".toList else []))
        "linux".toList "amd64".toList (some "/home/dev/dwg-go".toList)).map
      (fun ctx => ensureSource (configFromEnv id (fun k => if k = "DWG_CLEAN".toList
          then "1".toList
          else if k = "DWG_SRC_DIRNAME".toList then "../../libredwg-src".toList else []))
        (fsHost serviceTree) ctx Run.start)
      = some
        { trace := [
            Op.mkdirAll "dwg_service/build/_src".toList,
            Op.removeAll "dwg_service/build".toList,
            Op.mkdirAll "dwg_service/build/_src".toList,
            Op.stat "dwg_service/libredwg-src".toList,
            Op.run "dwg_service/libredwg-src".toList "git".toList
              ["fetch".toList, "--all".toList, "--tags".toList],
            Op.run "dwg_service/libredwg-src".toList "git".toList
              ["checkout".toList, "master".toList],
            Op.run "dwg_service/libredwg-src".toList "git".toList
              ["submodule".toList, "update".toList, "--init".toList, "--recursive".toList]],
          alive := true } := by
  decide

/-- C11, amended. For every configuration, host and context, a run of
`ensureSource` makes the actions of its plan in order and stops only after a
failing action whose error is fatal: directory creation, then (clean enabled)
the attempt to remove the build-cache root and directory creation again, then
the test for the source directory, then exactly one of clone and
fetch --all --tags, then checkout of the configured ref, then the recursive
submodule update. When the run does not exit, the version-control commands are
exactly these three, in this order. Clone is issued exactly when the test is
reached and reports the source directory absent, fetch exactly when it is
reached and reports it present. With clean enabled the removal is attempted
before the test. On a host with a file system where no directory creation and
no removal fails, with clean enabled and a source directory name that is a
single path element, the test reports the source directory absent and clone
is issued. -/
theorem ensureSource_commands (cfg : Config) (h : Host) (ctx : buildCtx) (r : Run)
    (present : Bool) (hr : r.alive = true)
    (hp : present = h (r.trace ++ ensureSetup cfg ctx) (Op.stat ctx.srcDir)) :
    ∃ new : List Op,
      (ensureSource cfg h ctx r).trace = r.trace ++ new ∧
      new <+: ensurePlan cfg ctx present ∧
      ((ensureSource cfg h ctx r).alive = true → new = ensurePlan cfg ctx present) ∧
      gitCmds new <+:
        [if present then gitFetch ctx else gitClone cfg ctx, gitCheckout cfg ctx,
          gitSubmodule ctx] ∧
      ((ensureSource cfg h ctx r).alive = true → gitCmds new =
        [if present then gitFetch ctx else gitClone cfg ctx, gitCheckout cfg ctx,
          gitSubmodule ctx]) ∧
      (gitClone cfg ctx ∈ new ↔ (Op.stat ctx.srcDir ∈ new ∧ present = false)) ∧
      (gitFetch ctx ∈ new ↔ (Op.stat ctx.srcDir ∈ new ∧ present = true)) ∧
      (cfg.Clean = true → Op.stat ctx.srcDir ∈ new →
        [Op.mkdirAll ctx.srcRoot, Op.removeAll ctx.buildRoot, Op.mkdirAll ctx.srcRoot] <+: new) ∧
      (∀ (m : FsModel) (goos goarch wd : Str), h = fsHost m →
        newBuildCtx cfg goos goarch (some wd) = some ctx →
        cfg.Clean = true → PlainElem cfg.SourceDirName →
        (∀ tr p, m.fails tr (Op.mkdirAll p) = false) →
        (∀ tr p, m.fails tr (Op.removeAll p) = false) →
        present = false ∧ gitClone cfg ctx ∈ new) := by
  obtain ⟨new, h1, h2, h3, h4, h5, h6, h7, h8, h9⟩ :=
    ensureSource_general cfg h ctx r present hr hp
  refine ⟨new, h1, h2, h3, h4, h5, h6, h7, h8, ?_⟩
  intro m goos goarch wd hm hctx hc hname hmk hrm
  have hpres : present = false := by
    rw [hp, hm]
    simp only [newBuildCtx, Option.some.injEq] at hctx
    subst hctx
    simp only [ensureSetup, hc, if_true]
    exact stat_absent_after_clean m r.trace (clean cfg.BuildRoot) "_src".toList
      cfg.SourceDirName (clean_ne_nil _) (by decide) hname (hrm _ _)
  refine ⟨hpres, h6.2 ⟨h9 ?_, hpres⟩⟩
  intro tr p
  rw [hm]
  exact fsHost_mkdirAll m hmk tr p

/-- C11, amended, with clean enabled and default names on a host where
everything below `dwg_service` exists and no action fails: the clone is the
first version-control command. -/
theorem ensureSource_commands_witness :
    ∃ ctx new,
      newBuildCtx (configFromEnv id (fun k => if k = "DWG_CLEAN".toList then "1".toList else []))
        "linux".toList "amd64".toList (some "/home/dev/dwg-go".toList) = some ctx ∧
      (ensureSource (configFromEnv id (fun k => if k = "DWG_CLEAN".toList then "1".toList else []))
        (fsHost serviceTree) ctx Run.start).trace = new ∧
      gitClone (configFromEnv id (fun k => if k = "DWG_CLEAN".toList then "1".toList else []))
        ctx ∈ new := by
  refine ⟨_, _, rfl, rfl, ?_⟩
  obtain ⟨new, h1, _, _, _, _, _, _, _, h9⟩ := ensureSource_commands
    (configFromEnv id (fun k => if k = "DWG_CLEAN".toList then "1".toList else []))
    (fsHost serviceTree)
    { goos := "linux".toList, goarch := "amd64".toList, target := "linux-amd64".toList,
      buildRoot := "dwg_service/build".toList, srcRoot := "dwg_service/build/_src".toList,
      srcDir := "dwg_service/build/_src/libredwg".toList,
      buildDir := "dwg_service/build/_build_linux-amd64".toList,
      installDir := "dwg_service/build/_install/linux-amd64".toList,
      finalRoot := "dwg_service/libs/libredwg".toList,
      finalInclude := "dwg_service/libs/libredwg/include".toList,
      finalLibDir := "dwg_service/libs/libredwg/linux-amd64/lib".toList,
      finalLibA := [], wd := "/home/dev/dwg-go".toList }
    Run.start false rfl (by decide)
  have h := (h9 _ "linux".toList "amd64".toList "/home/dev/dwg-go".toList rfl rfl (by decide)
    (by decide) (fun _ _ => rfl) (fun _ _ => rfl)).2
  have hnew : (ensureSource
      (configFromEnv id (fun k => if k = "DWG_CLEAN".toList then "1".toList else []))
      (fsHost serviceTree)
      { goos := "linux".toList, goarch := "amd64".toList, target := "linux-amd64".toList,
        buildRoot := "dwg_service/build".toList, srcRoot := "dwg_service/build/_src".toList,
        srcDir := "dwg_service/build/_src/libredwg".toList,
        buildDir := "dwg_service/build/_build_linux-amd64".toList,
        installDir := "dwg_service/build/_install/linux-amd64".toList,
        finalRoot := "dwg_service/libs/libredwg".toList,
        finalInclude := "dwg_service/libs/libredwg/include".toList,
        finalLibDir := "dwg_service/libs/libredwg/linux-amd64/lib".toList,
        finalLibA := [], wd := "/home/dev/dwg-go".toList } Run.start).trace = new := by
    rw [h1]; rfl
  rw [← hnew] at h
  exact h

/-! ## Facts about `pkgNames` and `tryPkgConfig` -/

theorem pkgNames_fold (parts : List Str) (acc : List Str) :
    parts.foldl (fun acc p => if trimSpace p ≠ [] then acc ++ [trimSpace p] else acc) acc
      = acc ++ (parts.map trimSpace).filter (fun p => decide (p ≠ [])) := by
  induction parts generalizing acc with
  | nil => simp
  | cons p ps ih =>
    rw [List.foldl_cons, ih]
    by_cases hp : trimSpace p = []
    · simp [hp]
    · simp [hp]

theorem pkgQueries_nil (goos wd : Str) (env : List Str) : pkgQueries goos wd env [] = [] := rfl

theorem pkgQueries_cons (goos wd : Str) (env : List Str) (n : Str) (ns : List Str) :
    pkgQueries goos wd env (n :: ns) =
      cflagsQuery goos wd env n :: libsQuery goos wd env n :: pkgQueries goos wd env ns := by
  simp [pkgQueries]

theorem pkgQueries_append (goos wd : Str) (env : List Str) (a b : List Str) :
    pkgQueries goos wd env (a ++ b) = pkgQueries goos wd env a ++ pkgQueries goos wd env b := by
  simp [pkgQueries]

theorem noYield_nil (out : Stdout) (goos wd : Str) (env : List Str) (t0 : List Op) :
    NoYield out goos wd env t0 [] := by
  intro a m b hsplit
  exact absurd hsplit (by simp)

theorem noYield_cons (out : Stdout) (goos wd : Str) (env : List Str) (t0 : List Op) (n : Str)
    (ns : List Str) (h0 : pkgYield out goos wd env t0 n = ([], []))
    (hrest : NoYield out goos wd env
      (t0 ++ [cflagsQuery goos wd env n, libsQuery goos wd env n]) ns) :
    NoYield out goos wd env t0 (n :: ns) := by
  intro a m b hsplit
  cases a with
  | nil =>
    simp only [List.nil_append, List.cons.injEq] at hsplit
    rw [← hsplit.1, pkgQueries_nil, List.append_nil]
    exact h0
  | cons x a =>
    simp only [List.cons_append, List.cons.injEq] at hsplit
    have := hrest a m b hsplit.2
    rw [← hsplit.1, pkgQueries_cons]
    simpa using this

theorem firstYield_cons (out : Stdout) (goos wd : Str) (env : List Str) (t0 : List Op) (n : Str)
    (ns : List Str) (res : Str × Str × Bool) (tr : List Op)
    (h0 : pkgYield out goos wd env t0 n = ([], []))
    (hrest : FirstYield out goos wd env
      (t0 ++ [cflagsQuery goos wd env n, libsQuery goos wd env n]) ns res tr) :
    FirstYield out goos wd env t0 (n :: ns) res tr := by
  rcases hrest with ⟨pre, m, post, hsplit, hno, hy, hres, htr⟩ | ⟨hno, hres, htr⟩
  · left
    refine ⟨n :: pre, m, post, by rw [hsplit]; rfl, noYield_cons out goos wd env t0 n pre h0 hno,
      ?_, ?_, ?_⟩
    · rw [pkgQueries_cons]; simpa using hy
    · rw [pkgQueries_cons]; simpa using hres
    · rw [htr, List.cons_append, pkgQueries_cons]; simp
  · right
    refine ⟨noYield_cons out goos wd env t0 n ns h0 hno, hres, ?_⟩
    rw [htr, pkgQueries_cons]; simp

theorem firstYield_head (out : Stdout) (goos wd : Str) (env : List Str) (t0 : List Op) (n : Str)
    (ns : List Str) (h0 : pkgYield out goos wd env t0 n ≠ ([], [])) :
    FirstYield out goos wd env t0 (n :: ns)
      ((pkgYield out goos wd env t0 n).1, (pkgYield out goos wd env t0 n).2, true)
      (t0 ++ [cflagsQuery goos wd env n, libsQuery goos wd env n]) := by
  left
  refine ⟨[], n, ns, rfl, noYield_nil out goos wd env t0, ?_, ?_, ?_⟩
  · simpa [pkgQueries_nil] using h0
  · simp [pkgQueries_nil]
  · simp [pkgQueries_cons, pkgQueries_nil]

theorem yield_ne_iff (cf ls : Str) : (cf ≠ [] ∨ ls ≠ []) ↔ (cf, ls) ≠ (([], []) : Str × Str) := by
  constructor
  · rintro (h | h) he
    · exact h (congrArg Prod.fst he)
    · exact h (congrArg Prod.snd he)
  · intro h
    by_cases hc : cf = []
    · right; intro hl; exact h (by rw [hc, hl])
    · left; exact hc

theorem pkgLoopDirect_spec (h : Host) (out : Stdout) (goos wd : Str) (env : List Str)
    (names : List Str) (r : Run) (hr : r.alive = true) :
    (pkgLoopDirect h out goos wd env names r).1.alive = true ∧
      FirstYield out goos wd env r.trace names (pkgLoopDirect h out goos wd env names r).2
        (pkgLoopDirect h out goos wd env names r).1.trace := by
  induction names generalizing r with
  | nil =>
    refine ⟨hr, Or.inr ⟨noYield_nil out goos wd env r.trace, rfl, ?_⟩⟩
    simp [pkgLoopDirect, pkgQueries_nil]
  | cons n ns ih =>
    simp only [pkgLoopDirect]
    rw [discard_alive h _ r hr, discard_alive h _ _ rfl]
    simp only [List.append_assoc, List.singleton_append]
    by_cases hy : pkgYield out goos wd env r.trace n = ([], [])
    · have hno : ¬ (trimSpace (out r.trace (cflagsQuery goos wd env n)) ≠ [] ∨
          trimSpace (out (r.trace ++ [cflagsQuery goos wd env n]) (libsQuery goos wd env n)) ≠ []) := by
        rw [yield_ne_iff]; exact fun hne => hne hy
      rw [if_neg hno]
      obtain ⟨h1, h2⟩ := ih
        { trace := r.trace ++ [cflagsQuery goos wd env n, libsQuery goos wd env n], alive := true }
        rfl
      exact ⟨h1, firstYield_cons out goos wd env r.trace n ns _ _ hy h2⟩
    · have hyes : trimSpace (out r.trace (cflagsQuery goos wd env n)) ≠ [] ∨
          trimSpace (out (r.trace ++ [cflagsQuery goos wd env n]) (libsQuery goos wd env n)) ≠ [] := by
        rw [yield_ne_iff]; exact hy
      rw [if_pos hyes]
      exact ⟨rfl, firstYield_head out goos wd env r.trace n ns hy⟩

theorem pkgLoopBash_spec (h : Host) (out : Stdout) (wd : Str) (env : List Str)
    (hbash : ∀ tr d s e, h tr (Op.outputBash d s e) = true)
    (names : List Str) (r : Run) (hr : r.alive = true) :
    (pkgLoopBash h out wd env names r).1.alive = true ∧
      FirstYield out "windows".toList wd env r.trace names (pkgLoopBash h out wd env names r).2
        (pkgLoopBash h out wd env names r).1.trace := by
  have hcq : ∀ tr n, h tr (cflagsQuery "windows".toList wd env n) = true := by
    intro tr n; simp [cflagsQuery, hbash]
  have hlq : ∀ tr n, h tr (libsQuery "windows".toList wd env n) = true := by
    intro tr n; simp [libsQuery, hbash]
  induction names generalizing r with
  | nil =>
    refine ⟨hr, Or.inr ⟨noYield_nil out _ wd env r.trace, rfl, ?_⟩⟩
    simp [pkgLoopBash, pkgQueries_nil]
  | cons n ns ih =>
    simp only [pkgLoopBash]
    rw [must_alive h _ r hr]
    simp only [hcq, if_true]
    rw [must_alive h _ _ rfl]
    simp only [hlq, if_true, List.append_assoc, List.singleton_append]
    by_cases hy : pkgYield out "windows".toList wd env r.trace n = ([], [])
    · have hno : ¬ (trimSpace (out r.trace (cflagsQuery "windows".toList wd env n)) ≠ [] ∨
          trimSpace (out (r.trace ++ [cflagsQuery "windows".toList wd env n])
            (libsQuery "windows".toList wd env n)) ≠ []) := by
        rw [yield_ne_iff]; exact fun hne => hne hy
      rw [if_neg hno]
      obtain ⟨h1, h2⟩ := ih
        { trace := r.trace ++ [cflagsQuery "windows".toList wd env n,
            libsQuery "windows".toList wd env n], alive := true } rfl
      exact ⟨h1, firstYield_cons out _ wd env r.trace n ns _ _ hy h2⟩
    · have hyes : trimSpace (out r.trace (cflagsQuery "windows".toList wd env n)) ≠ [] ∨
          trimSpace (out (r.trace ++ [cflagsQuery "windows".toList wd env n])
            (libsQuery "windows".toList wd env n)) ≠ [] := by
        rw [yield_ne_iff]; exact hy
      rw [if_pos hyes]
      exact ⟨rfl, firstYield_head out _ wd env r.trace n ns hy⟩

theorem firstYield_none (out : Stdout) (goos wd : Str) (env : List Str) (t0 : List Op)
    (names : List Str) (res : Str × Str × Bool) (tr : List Op)
    (hf : FirstYield out goos wd env t0 names res tr)
    (hno : NoYield out goos wd env t0 names) : res = ([], [], false) := by
  rcases hf with ⟨pre, n, post, hsplit, _, hy, _, _⟩ | ⟨_, hres, _⟩
  · exact absurd (hno pre n post hsplit) hy
  · exact hres

/-- C12. `pkgNames` is the comma-separated setting with every segment trimmed
and the empty segments dropped, in order. For every host, with the working
directory known (and, on windows, shell invocations that do not fail),
`tryPkgConfig` returns: on a host other than windows where `pkg-config` is not
found, not-found at once; otherwise it queries the candidates of `pkgNames` in
order, compile flags then static link flags, up to the first candidate for
which one of the two trimmed outputs is not empty, and returns these two
trimmed outputs with found = true; when every candidate gives two empty
outputs it has queried all of them and returns two empty strings with
found = false. -/
theorem tryPkgConfig_first_yield (cfg : Config) (h : Host) (out : Stdout) (wd : Str)
    (ctx : buildCtx) (r : Run) (hr : r.alive = true)
    (hbash : ctx.goos = "windows".toList → ∀ tr d s e, h tr (Op.outputBash d s e) = true) :
    pkgNames cfg = ((splitOnChar ',' cfg.PkgNameCandidates).map trimSpace).filter
      (fun p => decide (p ≠ [])) ∧
    ∃ a, mustAbs (some wd) ctx.installDir = some a ∧
      (tryPkgConfig cfg h out (some wd) ctx r).1.alive = true ∧
      (ctx.goos ≠ "windows".toList → h r.trace (Op.lookPath "pkg-config".toList) = false →
        (tryPkgConfig cfg h out (some wd) ctx r).2 = ([], [], false) ∧
        (tryPkgConfig cfg h out (some wd) ctx r).1.trace =
          r.trace ++ [Op.lookPath "pkg-config".toList]) ∧
      (∀ t0, (ctx.goos = "windows".toList ∧ t0 = r.trace) ∨
          (ctx.goos ≠ "windows".toList ∧ h r.trace (Op.lookPath "pkg-config".toList) = true ∧
            t0 = r.trace ++ [Op.lookPath "pkg-config".toList]) →
        FirstYield out ctx.goos ctx.wd [pkgConfigEnv ctx.goos a] t0 (pkgNames cfg)
          (tryPkgConfig cfg h out (some wd) ctx r).2
          (tryPkgConfig cfg h out (some wd) ctx r).1.trace ∧
        (NoYield out ctx.goos ctx.wd [pkgConfigEnv ctx.goos a] t0 (pkgNames cfg) →
          (tryPkgConfig cfg h out (some wd) ctx r).2 = ([], [], false))) := by
  refine ⟨?_, ?_⟩
  · unfold pkgNames
    rw [pkgNames_fold]; rfl
  · obtain ⟨a, ha⟩ := mustAbs_some wd ctx.installDir
    refine ⟨a, ha, ?_, ?_, ?_⟩
    · unfold tryPkgConfig
      rw [ha]
      by_cases hw : ctx.goos = "windows".toList
      · simp only [hw, if_true]
        exact (pkgLoopBash_spec h out ctx.wd _ (hbash hw) (pkgNames cfg) r hr).1
      · simp only [hw, if_false]
        by_cases hl : h r.trace (Op.lookPath "pkg-config".toList) = true
        · simp only [hl, if_true]
          exact (pkgLoopDirect_spec h out ctx.goos ctx.wd _ (pkgNames cfg) _
            (by rw [discard_alive h _ r hr])).1
        · simp only [hl, Bool.false_eq_true, if_false]
          rw [discard_alive h _ r hr]
    · intro hw hl
      unfold tryPkgConfig
      rw [ha]
      simp only [hw, if_false, hl, Bool.false_eq_true]
      rw [discard_alive h _ r hr]
      simp
    · intro t0 ht0
      have hfy : FirstYield out ctx.goos ctx.wd [pkgConfigEnv ctx.goos a] t0 (pkgNames cfg)
          (tryPkgConfig cfg h out (some wd) ctx r).2
          (tryPkgConfig cfg h out (some wd) ctx r).1.trace := by
        unfold tryPkgConfig
        rw [ha]
        rcases ht0 with ⟨hw, ht⟩ | ⟨hw, hl, ht⟩
        · simp only [hw, if_true]
          rw [ht]
          exact (pkgLoopBash_spec h out ctx.wd [pkgConfigEnv "windows".toList a] (hbash hw)
            (pkgNames cfg) r hr).2
        · simp only [hw, if_false, hl, if_true]
          rw [ht]
          have := (pkgLoopDirect_spec h out ctx.goos ctx.wd [pkgConfigEnv ctx.goos a]
            (pkgNames cfg) (r.discard h (Op.lookPath "pkg-config".toList))
            (by rw [discard_alive h _ r hr])).2
          rw [discard_alive h _ r hr] at this ⊢
          exact this
      exact ⟨hfy, firstYield_none _ _ _ _ _ _ _ _ hfy⟩

/-- C12 on linux/amd64 with the default candidates, on a host where
`pkg-config` is found and knows only `redwg`: the first candidate `libredwg`
gives nothing, the second gives the flags returned. -/
theorem tryPkgConfig_first_yield_witness :
    ∃ ctx, newBuildCtx (configFromEnv id (fun _ => [])) "linux".toList "amd64".toList
        (some "/home/dev/dwg-go".toList) = some ctx ∧
      (tryPkgConfig (configFromEnv id (fun _ => [])) (fun _ _ => true) redwgOnly
        (some "/home/dev/dwg-go".toList) ctx Run.start).1.alive = true ∧
      (tryPkgConfig (configFromEnv id (fun _ => [])) (fun _ _ => true) redwgOnly
        (some "/home/dev/dwg-go".toList) ctx Run.start).2 =
          ("-I/opt/redwg/include".toList, "-L/opt/redwg/lib -lredwg -lm".toList, true) ∧
      pkgNames (configFromEnv id (fun _ => [])) =
        ["libredwg".toList, "redwg".toList, "libreDWG".toList, "libredwg-0".toList,
          "libredwg-0.1".toList] := by
  refine ⟨_, rfl, ?_, by decide, by decide⟩
  obtain ⟨_, a, _, hal, _⟩ := tryPkgConfig_first_yield (configFromEnv id (fun _ => []))
    (fun _ _ => true) redwgOnly "/home/dev/dwg-go".toList
    { goos := "linux".toList, goarch := "amd64".toList, target := "linux-amd64".toList,
      buildRoot := "dwg_service/build".toList, srcRoot := "dwg_service/build/_src".toList,
      srcDir := "dwg_service/build/_src/libredwg".toList,
      buildDir := "dwg_service/build/_build_linux-amd64".toList,
      installDir := "dwg_service/build/_install/linux-amd64".toList,
      finalRoot := "dwg_service/libs/libredwg".toList,
      finalInclude := "dwg_service/libs/libredwg/include".toList,
      finalLibDir := "dwg_service/libs/libredwg/linux-amd64/lib".toList,
      finalLibA := [], wd := "/home/dev/dwg-go".toList }
    Run.start rfl (fun _ _ _ _ _ => rfl)
  exact hal

end DwgBuild
